import Mathlib

/-!
The client core `iow::io::client`: outgoing registry, source, managed connection
and client.

A shallow embedding of `src/iow/io/client/client.hpp`.

* `outgoing_map` is the table `std::map<io_id_t, outgoing_handler_t>` together
  with its round-robin cursor `_iterator`.  The table is a list of entries kept
  in ascending key order (the iteration order of `std::map`); a `const_iterator`
  is either `none` (the past-the-end iterator) or `some k`, the node of key `k`.
  Functions assume but do not require that the table is sorted and the cursor
  names a present key; separate lemmas show that the operations keep both.
* A handler is a callable; the embedding names it by a number and returns the
  invocation performed by an operation as part of the operation's result.
* `data_ptr` is a nullable owning pointer: `none` is `nullptr`.
* `client` keeps the channel map `std::map<io_id_t, mtconn_ptr>`; an entry holds
  the state of the connection it points to.  A call that would throw (the empty
  factory before `start`) returns `none`.
-/

namespace iow.io.client

/-! ## Data model -/

abbrev io_id_t := Nat
abbrev data_type := List Nat
abbrev data_ptr := Option data_type
abbrev outgoing_handler_t := Nat
abbrev handler_map := List (io_id_t × outgoing_handler_t)
abbrev const_iterator := Option io_id_t

/-- An incoming handler: a callable supplied by the user, named by a number, or
the lambda that `client::send` builds around the reply handler it was given
(`nullptr` is `none`). -/
inductive incoming_handler_t where
  | user (name : Nat)
  | adapter (handler : Option outgoing_handler_t)
deriving DecidableEq, Repr

instance (n : Nat) : OfNat incoming_handler_t n := ⟨incoming_handler_t.user n⟩

namespace handler_map

/-- The effect of `m[k] = h` on the ordered table: the entry of key `k` is
overwritten in place, or a new entry is inserted at its place in key order. -/
def assign : handler_map → io_id_t → outgoing_handler_t → handler_map
  | [], k, h => [(k, h)]
  | (k0, h0) :: rest, k, h =>
    if k < k0 then (k, h) :: (k0, h0) :: rest
    else if k = k0 then (k, h) :: rest
    else (k0, h0) :: assign rest k h

/-- The effect of `m.erase(k)`: the entry of key `k`, if any, is removed. -/
def erase (m : handler_map) (k : io_id_t) : handler_map :=
  m.filter (fun e => decide (e.1 ≠ k))

/-- The value found by `m.find(k)`, `none` when `find` returns `end()`. -/
def find (m : handler_map) (k : io_id_t) : Option outgoing_handler_t :=
  (m.find? (fun e => decide (e.1 = k))).map Prod.snd

/-- The iterator `m.begin()`: the node of the least key, `end()` when empty. -/
def first (m : handler_map) : const_iterator :=
  m.head?.map Prod.fst

/-- The iterator reached by `++it` from the node of key `k`: the node of the
next greater key, `end()` when there is none. -/
def next (m : handler_map) (k : io_id_t) : const_iterator :=
  (m.find? (fun e => decide (k < e.1))).map Prod.fst

end handler_map

/-- The class `outgoing_map`: the handler table and the round-robin cursor. -/
structure outgoing_map where
  _handlers : handler_map
  _iterator : const_iterator
deriving DecidableEq, Repr

/-- What one call of `outgoing_map::send` does: the registry afterwards, the
handler it invoked with the message once the lock was released (`none` when it
invoked nothing), and the pointer it returned. -/
structure send_result where
  map : outgoing_map
  handler : Option outgoing_handler_t
  ret : data_ptr
deriving DecidableEq, Repr

namespace outgoing_map

/-- The constructor: an empty table, the cursor at `end()`. -/
def init : outgoing_map := ⟨[], none⟩

/-- `set(io_id, handler)`: `_handlers[io_id] = handler`; the cursor is kept. -/
def set (m : outgoing_map) (io_id : io_id_t) (handler : outgoing_handler_t) : outgoing_map :=
  { m with _handlers := handler_map.assign m._handlers io_id handler }

/-- `has(io_id)`. -/
def has (m : outgoing_map) (io_id : io_id_t) : Bool :=
  (handler_map.find m._handlers io_id).isSome

/-- `get(io_id)`: the handler, `none` for `nullptr`. -/
def get (m : outgoing_map) (io_id : io_id_t) : Option outgoing_handler_t :=
  handler_map.find m._handlers io_id

/-- `erase(io_id)`: removes the entry and puts the cursor at `end()`. -/
def erase (m : outgoing_map) (io_id : io_id_t) : outgoing_map :=
  ⟨handler_map.erase m._handlers io_id, none⟩

/-- `send(d)`: with an empty table the message is handed back; otherwise a
cursor at `end()` is moved to `begin()`, the handler under the cursor is taken,
the cursor is advanced, and the handler is invoked with the message.  The
dereference `_iterator->second` is the lookup of the cursor's key; a cursor
naming an absent key, where the lookup finds nothing, does not occur in a state
reached from the constructor (`outgoing_map.run_invariant`). -/
def send (m : outgoing_map) (d : data_ptr) : send_result :=
  if m._handlers.isEmpty then ⟨m, none, d⟩
  else
    let it : const_iterator :=
      if m._iterator = none then handler_map.first m._handlers else m._iterator
    ⟨⟨m._handlers, it.bind (handler_map.next m._handlers)⟩,
      it.bind (handler_map.find m._handlers), none⟩

/-- The handlers invoked by consecutive `send` calls, one per message. -/
def sends : outgoing_map → List data_ptr → outgoing_map × List (Option outgoing_handler_t) × List data_ptr
  | m, [] => (m, [], [])
  | m, d :: ds =>
    let r := m.send d
    let t := sends r.map ds
    (t.1, r.handler :: t.2.1, r.ret :: t.2.2)

/-- The cursor is `end()` or names a key present in the table. -/
def cursor_valid (m : outgoing_map) : Prop :=
  ∀ k, m._iterator = some k → k ∈ m._handlers.map Prod.fst

/-- The table is in strictly ascending key order. -/
def ordered (m : outgoing_map) : Prop :=
  (m._handlers.map Prod.fst).Sorted (· < ·)

instance (m : outgoing_map) : Decidable m.cursor_valid := by
  unfold cursor_valid
  cases h : m._iterator with
  | none => exact isTrue (by intro k hk; cases hk)
  | some k0 =>
    by_cases hk0 : k0 ∈ m._handlers.map Prod.fst
    · exact isTrue (by intro k hk; cases hk; exact hk0)
    · exact isFalse (fun hall => hk0 (hall k0 rfl))

instance (m : outgoing_map) : Decidable m.ordered := by
  unfold ordered; infer_instance

end outgoing_map

/-- One public operation of `outgoing_map`. -/
inductive map_op where
  | set (io_id : io_id_t) (handler : outgoing_handler_t)
  | erase (io_id : io_id_t)
  | send (d : data_ptr)
deriving DecidableEq, Repr

/-- The registry after one operation. -/
def outgoing_map.apply (m : outgoing_map) : map_op → outgoing_map
  | .set k h => m.set k h
  | .erase k => m.erase k
  | .send d => (m.send d).map

/-- The registry reached from the constructor by a sequence of operations. -/
def outgoing_map.run (ops : List map_op) : outgoing_map :=
  ops.foldl outgoing_map.apply outgoing_map.init

/-- The `set` calls registering the entries of `l`, in the order of `l`. -/
def outgoing_map.sets (l : handler_map) : List map_op :=
  l.map (fun e => map_op.set e.1 e.2)

/-! ## source -/

abbrev wait_data_t := List data_ptr

/-- The class `source`: the registry `_remotes`, the backlog `_wait_data`
(a `std::vector<data_ptr>`), its capacity, and the channel's identity. -/
structure source where
  _source_id : io_id_t
  _source_handler : incoming_handler_t
  _outgoing_limit : Nat
  _remotes : outgoing_map
  _wait_data : wait_data_t
deriving DecidableEq, Repr

/-- One invocation `handler(d)` of an outgoing handler. -/
structure call where
  handler : outgoing_handler_t
  data : data_ptr
deriving DecidableEq, Repr

/-- What running an outgoing handler on a message does to the source it was
registered with.  Handlers are invoked with no lock held, so a handler may call
back into the source; `invoke_t` is the state change such a call makes. -/
abbrev invoke_t := outgoing_handler_t → data_ptr → source → source

/-- A handler that does not call back into the source. -/
def quiet : invoke_t := fun _ _ s => s

namespace source

/-- The constructor `source(io_id, handler, outgoing_limit)`. -/
def init (io_id : io_id_t) (handler : incoming_handler_t) (outgoing_limit : Nat) : source :=
  ⟨io_id, handler, outgoing_limit, outgoing_map.init, []⟩

/-- The call `_remotes.send(d)` made from inside `source`: the locked section of
`outgoing_map::send` updates the registry, then the chosen handler runs on the
source.  Returns the source afterwards, the invocation made, and the pointer
`outgoing_map::send` returned. -/
def remotes_send (invoke : invoke_t) (s : source) (d : data_ptr) : source × List call × data_ptr :=
  let r := s._remotes.send d
  let s1 := { s with _remotes := r.map }
  match r.handler with
  | some h => (invoke h d s1, [⟨h, d⟩], r.ret)
  | none => (s1, [], r.ret)

/-- The loop of `reg` over the taken backlog `wd`: each entry is offered to
`_remotes.send`; at the first one handed back the loop stores it back in its
slot and breaks.  Returns the source afterwards, the invocations made, and the
range `[itr, end)` that was not dispatched. -/
def replay (invoke : invoke_t) : source → wait_data_t → source × List call × wait_data_t
  | s, [] => (s, [], [])
  | s, x :: rest =>
    let r := remotes_send invoke s x
    match r.2.2 with
    | some d => (r.1, r.2.1, some d :: rest)
    | none =>
      let t := replay invoke r.1 rest
      (t.1, r.2.1 ++ t.2.1, t.2.2)

/-- `reg(io_id, handler)`: registers the handler, swaps the backlog out, replays
it, and inserts what was not dispatched at the front of the current backlog. -/
def reg (invoke : invoke_t) (s : source) (io_id : io_id_t) (handler : outgoing_handler_t) :
    source × List call :=
  let s1 := { s with _remotes := s._remotes.set io_id handler }
  let wd := s1._wait_data
  let s2 := { s1 with _wait_data := [] }
  let t := replay invoke s2 wd
  ({ t.1 with _wait_data := t.2.2 ++ t.1._wait_data }, t.2.1)

/-- `unreg(io_id)`. -/
def unreg (s : source) (io_id : io_id_t) : source :=
  { s with _remotes := s._remotes.erase io_id }

/-- `send(d)`: a message handed back by `_remotes.send` is appended to the
backlog when `_wait_data.size() < _outgoing_limit`, and returned otherwise. -/
def send (invoke : invoke_t) (s : source) (d : data_ptr) : source × List call × data_ptr :=
  let r := remotes_send invoke s d
  match r.2.2 with
  | some dd =>
    if r.1._wait_data.length < r.1._outgoing_limit then
      ({ r.1 with _wait_data := r.1._wait_data ++ [some dd] }, r.2.1, none)
    else (r.1, r.2.1, some dd)
  | none => (r.1, r.2.1, none)

end source

/-- One public operation of `source`. -/
inductive source_op where
  | reg (io_id : io_id_t) (handler : outgoing_handler_t)
  | unreg (io_id : io_id_t)
  | send (d : data_ptr)
deriving DecidableEq, Repr

/-- The source after one operation. -/
def source.apply (invoke : invoke_t) (s : source) : source_op → source
  | .reg k h => (s.reg invoke k h).1
  | .unreg k => s.unreg k
  | .send d => (s.send invoke d).1

/-- The source after a sequence of operations. -/
def source.run (invoke : invoke_t) (s : source) (ops : List source_op) : source :=
  ops.foldl (source.apply invoke) s

/-- A handler body that calls back into the source it is registered with: it
runs the given operations on it, one after the other (the handlers those
operations invoke do not call back). -/
def reentrant (body : List source_op) : invoke_t :=
  fun _ _ s => source.run quiet s body

/-! ## mtconn -/

abbrev time_t := Int
abbrev error_code := Nat

/-- The value of `boost::asio::error::operation_aborted` (`ECANCELED`). -/
def operation_aborted : error_code := 125

/-- The value of a `time_t` (a signed 64-bit integer) computation. -/
def wrap64 (x : Int) : Int :=
  (x + 9223372036854775808) % 18446744073709551616 - 9223372036854775808

/-- The integer is representable in a `time_t`. -/
def in64 (x : Int) : Prop :=
  -9223372036854775808 ≤ x ∧ x < 9223372036854775808

instance (x : Int) : Decidable (in64 x) := by
  unfold in64; infer_instance

/-- The options a connection is started with: the reconnect timeout and which
of the optional user hooks are supplied. -/
structure options where
  reconnect_timeout_ms : time_t
  connect_handler : Bool
  error_handler : Bool
  startup_handler : Bool
  shutdown_handler : Bool
deriving DecidableEq, Repr

/-- What a connection asks of its collaborators: the transport, the reconnect
timer, the user hooks and the outgoing handlers. -/
inductive action where
  | connect
  | transport_start
  | transport_stop
  | timer_expires_from_now (ms : time_t)
  | timer_async_wait
  | user_connect
  | user_error (ec : error_code)
  | user_startup (io_id : io_id_t) (outgoing : outgoing_handler_t)
  | user_shutdown (io_id : io_id_t)
  | outgoing (c : call)
deriving DecidableEq, Repr

/-- The actions of the reconnect path: arming the reconnect timer and issuing a
connect attempt. -/
def action.reconnects : action → Bool
  | .connect => true
  | .timer_expires_from_now _ => true
  | .timer_async_wait => true
  | _ => false

/-- The class `mtconn`: the started flag, the reconnect timeout, the time of the
last reconnect scheduling, and the bound source. -/
structure mtconn where
  _started : Bool
  _reconnect_timeout_ms : time_t
  _connect_time : time_t
  _source : source
deriving DecidableEq, Repr

namespace mtconn

/-- The constructor `mtconn(io, source)`. -/
def init (src : source) : mtconn := ⟨false, 0, 0, src⟩

/-- `start(opt)`: sets the flag and the timeout, wraps the hooks, connects. -/
def start (c : mtconn) (opt : options) : mtconn × List action :=
  ({ c with _started := true, _reconnect_timeout_ms := opt.reconnect_timeout_ms }, [.connect])

/-- `stop()`. -/
def stop (c : mtconn) : mtconn × List action :=
  if c._started then ({ c with _started := false }, [.transport_stop]) else (c, [])

/-- The wait computed by the error handler from the clock reading `now`. -/
def reconnect_time (c : mtconn) (now : time_t) : time_t :=
  let diff := wrap64 (now - c._connect_time)
  if diff > c._reconnect_timeout_ms then 0 else wrap64 (c._reconnect_timeout_ms - diff)

/-- The wrapped `connect_handler`; `wthis` is the result of `wthis.lock()`. -/
def connect_handler (opt : options) (wthis : Option mtconn) : Option mtconn × List action :=
  let pre := if opt.connect_handler then [action.user_connect] else []
  match wthis with
  | none => (none, pre)
  | some pthis => (some pthis, pre ++ [.transport_start])

/-- The wrapped `error_handler`, run with error code `ec` while the clock
reads `now`. -/
def error_handler (opt : options) (ec : error_code) (now : time_t) (wthis : Option mtconn) :
    Option mtconn × List action :=
  let pre := if opt.error_handler then [action.user_error ec] else []
  match wthis with
  | none => (none, pre)
  | some pthis =>
    (some { pthis with _connect_time := now },
      pre ++ [.timer_expires_from_now (pthis.reconnect_time now), .timer_async_wait])

/-- The completion handler passed to `_reconnect_timer.async_wait`. -/
def timer_handler (ec : error_code) (wthis : Option mtconn) : Option mtconn × List action :=
  match wthis with
  | none => (none, [])
  | some pthis => if ec = operation_aborted then (some pthis, []) else (some pthis, [.connect])

/-- The wrapped `startup_handler`. -/
def startup_handler (invoke : invoke_t) (opt : options) (io_id : io_id_t)
    (outgoing : outgoing_handler_t) (wthis : Option mtconn) : Option mtconn × List action :=
  let post := if opt.startup_handler then [action.user_startup io_id outgoing] else []
  match wthis with
  | none => (none, post)
  | some pthis =>
    let r := pthis._source.reg invoke io_id outgoing
    (some { pthis with _source := r.1 }, r.2.map action.outgoing ++ post)

/-- The wrapped `shutdown_handler`. -/
def shutdown_handler (opt : options) (io_id : io_id_t) (now : time_t) (wthis : Option mtconn) :
    Option mtconn × List action :=
  let pre := if opt.shutdown_handler then [action.user_shutdown io_id] else []
  match wthis with
  | none =>
    let e := error_handler opt 0 now none
    (e.1, pre ++ e.2)
  | some pthis =>
    let st := pthis.stop
    let c1 := { st.1 with _source := st.1._source.unreg io_id }
    let e := error_handler opt 0 now (some c1)
    (e.1, pre ++ st.2 ++ e.2)

end mtconn

/-- What can happen to a started connection. -/
inductive event where
  | start
  | stop
  | connect_ok
  | error (ec : error_code) (now : time_t)
  | startup (io_id : io_id_t) (outgoing : outgoing_handler_t)
  | shutdown (io_id : io_id_t) (now : time_t)
  | timer (ec : error_code)
deriving DecidableEq, Repr

/-- One step of a live connection whose hooks were installed from `opt`. -/
def mtconn.step (invoke : invoke_t) (opt : options) (c : mtconn) : event → mtconn × List action
  | .start => c.start opt
  | .stop => c.stop
  | .connect_ok => (c, (mtconn.connect_handler opt (some c)).2)
  | .error ec now =>
    let r := mtconn.error_handler opt ec now (some c)
    (r.1.getD c, r.2)
  | .startup io_id outgoing =>
    let r := mtconn.startup_handler invoke opt io_id outgoing (some c)
    (r.1.getD c, r.2)
  | .shutdown io_id now =>
    let r := mtconn.shutdown_handler opt io_id now (some c)
    (r.1.getD c, r.2)
  | .timer ec =>
    let r := mtconn.timer_handler ec (some c)
    (r.1.getD c, r.2)

/-- The steps of a live connection over a sequence of events: the connection
afterwards and the actions of each step. -/
def mtconn.steps (invoke : invoke_t) (opt : options) : mtconn → List event → mtconn × List (List action)
  | c, [] => (c, [])
  | c, e :: es =>
    let r := mtconn.step invoke opt c e
    let t := mtconn.steps invoke opt r.1 es
    (t.1, r.2 :: t.2)


/-- One invocation `_source_handler(d, io_id, outgoing)` of an incoming
handler. -/
structure incoming_call where
  handler : incoming_handler_t
  data : data_ptr
  io_id : io_id_t
  outgoing : outgoing_handler_t
deriving DecidableEq, Repr

/-- `source::recv(d, io_id, outgoing)`: the invocation it makes. -/
def source.recv (s : source) (d : data_ptr) (io_id : io_id_t) (outgoing : outgoing_handler_t) :
    incoming_call :=
  ⟨s._source_handler, d, io_id, outgoing⟩

/-- The body of the lambda that `client::send` registers as incoming handler:
`handler(std::move(d))`, the channel id and the outgoing handler are not used.
`none` when the captured handler is null and the call throws. -/
def adapter_body (handler : Option outgoing_handler_t) (d : data_ptr) (_io_id : io_id_t)
    (_outgoing : outgoing_handler_t) : Option call :=
  handler.map (fun h => ⟨h, d⟩)

/-- What one call of `mtconn::send` does: the connection afterwards, the
invocations made by `_source->send`, and the invocation `handler(nullptr)` of
the reply handler, if made. -/
structure conn_send_result where
  conn : mtconn
  calls : List call
  reply : Option call
deriving DecidableEq, Repr

/-- `mtconn::send(d, handler)`: the message goes to `_source->send`; when that
hands it back and `handler` is not null, `handler(nullptr)` is called. -/
def mtconn.send (invoke : invoke_t) (c : mtconn) (d : data_ptr)
    (handler : Option outgoing_handler_t) : conn_send_result :=
  let r := c._source.send invoke d
  match r.2.2 with
  | some _ =>
    match handler with
    | some h => ⟨{ c with _source := r.1 }, r.2.1, some ⟨h, none⟩⟩
    | none => ⟨{ c with _source := r.1 }, r.2.1, none⟩
  | none => ⟨{ c with _source := r.1 }, r.2.1, none⟩

/-! ## client -/

set_option linter.dupNamespace false

abbrev connect_map := List (io_id_t × mtconn)

namespace connect_map

/-- The connection found by `m.find(k)`, `none` when `find` returns `end()`. -/
def find (m : connect_map) (k : io_id_t) : Option mtconn :=
  (m.find? (fun e => decide (e.1 = k))).map Prod.snd

/-- The effect of `m.insert(std::make_pair(k, c))` on the ordered table: a new
entry at its place in key order; an entry of key `k` already there is kept. -/
def insert : connect_map → io_id_t → mtconn → connect_map
  | [], k, c => [(k, c)]
  | (k0, c0) :: rest, k, c =>
    if k < k0 then (k, c) :: (k0, c0) :: rest
    else if k = k0 then (k0, c0) :: rest
    else (k0, c0) :: insert rest k c

/-- The table once the connection that the entry of key `k` points to has
changed its state to `c`. -/
def update (m : connect_map) (k : io_id_t) (c : mtconn) : connect_map :=
  m.map (fun e => if e.1 = k then (e.1, c) else e)

end connect_map

/-- The class `client`: the factory `_create_and_start`, empty (`none`) until
`start(opt)` stores the closure capturing `opt`, and the channel map. -/
structure client where
  _create_and_start : Option options
  _connects : connect_map
deriving DecidableEq, Repr

/-- The closure stored by `client::start`: a source with the limit 1000, a
connection bound to it, started with the captured options. -/
def create_and_start (opt : options) (io_id : io_id_t) (handler : incoming_handler_t) :
    mtconn × List action :=
  (mtconn.init (source.init io_id handler 1000)).start opt

/-- What `client::reg_` does: the client afterwards, the connection returned,
the arguments of the factory calls made, and the actions of those calls. -/
structure reg_result where
  cl : client
  pconn : mtconn
  created : List (io_id_t × incoming_handler_t)
  actions : List action
deriving DecidableEq, Repr

namespace client

/-- The constructor `client(io)`. -/
def init : client := ⟨none, []⟩

/-- `start(opt)`. -/
def start (cl : client) (opt : options) : client :=
  { cl with _create_and_start := some opt }

/-- `reg_(io_id, handler)`: the connection of a known channel is returned as it
is; for an unknown one the factory is called and its result inserted.  `none`
when the factory is empty and the call throws. -/
def reg_ (cl : client) (io_id : io_id_t) (handler : incoming_handler_t) : Option reg_result :=
  match connect_map.find cl._connects io_id with
  | some pconn => some ⟨cl, pconn, [], []⟩
  | none =>
    match cl._create_and_start with
    | none => none
    | some opt =>
      let r := create_and_start opt io_id handler
      some ⟨{ cl with _connects := connect_map.insert cl._connects io_id r.1 }, r.1,
        [(io_id, handler)], r.2⟩

/-- `reg(io_id, handler)`. -/
def reg (cl : client) (io_id : io_id_t) (handler : incoming_handler_t) : Option reg_result :=
  cl.reg_ io_id handler

/-- What `client::send` does: the client afterwards, the factory calls made,
and what the call of `mtconn::send` did. -/
structure send_out where
  cl : client
  created : List (io_id_t × incoming_handler_t)
  sent : conn_send_result
deriving DecidableEq, Repr

/-- `send(d, io_id, handler)`: the connection of the channel is looked up, or
registered with the adapter lambda around `handler`; then `pconn->send`. -/
def send (invoke : invoke_t) (cl : client) (d : data_ptr) (io_id : io_id_t)
    (handler : Option outgoing_handler_t) : Option send_out :=
  match connect_map.find cl._connects io_id with
  | some pconn =>
    let r := pconn.send invoke d handler
    some ⟨{ cl with _connects := connect_map.update cl._connects io_id r.conn }, [], r⟩
  | none =>
    match cl.reg_ io_id (incoming_handler_t.adapter handler) with
    | none => none
    | some g =>
      let r := g.pconn.send invoke d handler
      some ⟨{ g.cl with _connects := connect_map.update g.cl._connects io_id r.conn },
        g.created, r⟩

end client

/-- One call of `client::reg` or `client::send`. -/
inductive client_op where
  | reg (io_id : io_id_t) (handler : incoming_handler_t)
  | send (d : data_ptr) (io_id : io_id_t) (handler : Option outgoing_handler_t)
deriving DecidableEq, Repr

/-- The client after one call, and the factory calls it made. -/
def client.apply (invoke : invoke_t) (cl : client) :
    client_op → Option (client × List (io_id_t × incoming_handler_t))
  | .reg k h => (cl.reg k h).map (fun g => (g.cl, g.created))
  | .send d k h => (cl.send invoke d k h).map (fun g => (g.cl, g.created))

/-- The client after a sequence of calls, and all the factory calls made. -/
def client.run (invoke : invoke_t) :
    client → List client_op → Option (client × List (io_id_t × incoming_handler_t))
  | cl, [] => some (cl, [])
  | cl, op :: ops =>
    match cl.apply invoke op with
    | none => none
    | some r =>
      match client.run invoke r.1 ops with
      | none => none
      | some t => some (t.1, r.2 ++ t.2)

/-! ## Lemmas on the ordered table -/

theorem handler_map.keys_assign (m : handler_map) (k : io_id_t) (h : outgoing_handler_t) :
    ∀ x, x ∈ (handler_map.assign m k h).map Prod.fst ↔ x = k ∨ x ∈ m.map Prod.fst := by
  induction m with
  | nil => intro x; simp [handler_map.assign]
  | cons e rest ih =>
    obtain ⟨k0, h0⟩ := e
    intro x
    unfold handler_map.assign
    split_ifs with h1 h2
    · simp
    · subst h2; simp
    · simp only [List.map_cons, List.mem_cons, ih x]
      tauto

theorem handler_map.sorted_assign (m : handler_map) (k : io_id_t) (h : outgoing_handler_t)
    (hs : (m.map Prod.fst).Sorted (· < ·)) :
    ((handler_map.assign m k h).map Prod.fst).Sorted (· < ·) := by
  induction m with
  | nil => simp [handler_map.assign]
  | cons e rest ih =>
    obtain ⟨k0, h0⟩ := e
    simp only [List.map_cons, List.sorted_cons] at hs
    unfold handler_map.assign
    split_ifs with h1 h2
    · simp only [List.map_cons, List.sorted_cons, List.mem_cons]
      refine ⟨?_, hs⟩
      rintro b (rfl | hb)
      · exact h1
      · exact lt_trans h1 (hs.1 b hb)
    · subst h2
      simpa using hs
    · simp only [List.map_cons, List.sorted_cons]
      refine ⟨?_, ih hs.2⟩
      intro b hb
      rcases (handler_map.keys_assign rest k h b).1 hb with rfl | hb
      · exact lt_of_le_of_ne (not_lt.mp h1) (Ne.symm h2)
      · exact hs.1 b hb

theorem handler_map.sorted_erase (m : handler_map) (k : io_id_t)
    (hs : (m.map Prod.fst).Sorted (· < ·)) :
    ((handler_map.erase m k).map Prod.fst).Sorted (· < ·) := by
  unfold handler_map.erase
  exact List.Pairwise.sublist ((List.filter_sublist m).map Prod.fst) hs

theorem handler_map.find_mid (pre post : handler_map) (e : io_id_t × outgoing_handler_t)
    (hs : ((pre ++ e :: post).map Prod.fst).Sorted (· < ·)) :
    handler_map.find (pre ++ e :: post) e.1 = some e.2 := by
  have hpre : ∀ x ∈ pre, x.1 < e.1 := by
    intro x hx
    simp only [List.map_append, List.map_cons, List.Sorted, List.pairwise_append] at hs
    exact hs.2.2 x.1 (List.mem_map_of_mem _ hx) e.1 (by simp)
  have hnone : pre.find? (fun x => decide (x.1 = e.1)) = none := by
    rw [List.find?_eq_none]
    intro x hx
    have := hpre x hx
    simp only [decide_eq_true_eq]
    exact ne_of_lt this
  simp [handler_map.find, List.find?_append, hnone]

theorem handler_map.next_mid (pre post : handler_map) (e : io_id_t × outgoing_handler_t)
    (hs : ((pre ++ e :: post).map Prod.fst).Sorted (· < ·)) :
    handler_map.next (pre ++ e :: post) e.1 = handler_map.first post := by
  simp only [List.map_append, List.map_cons, List.Sorted, List.pairwise_append,
    List.pairwise_cons] at hs
  have hnone : pre.find? (fun x => decide (e.1 < x.1)) = none := by
    rw [List.find?_eq_none]
    intro x hx
    have := hs.2.2 x.1 (List.mem_map_of_mem _ hx) e.1 (by simp)
    simp only [decide_eq_true_eq]
    exact lt_asymm this
  cases post with
  | nil => simp [handler_map.next, handler_map.first, List.find?_append, hnone]
  | cons e1 post1 =>
    have h1 : e.1 < e1.1 := hs.2.1.1 e1.1 (by simp)
    simp [handler_map.next, handler_map.first, List.find?_append, hnone, h1]

theorem handler_map.first_mem (m : handler_map) (k : io_id_t)
    (h : handler_map.first m = some k) : k ∈ m.map Prod.fst := by
  cases m with
  | nil => simp [handler_map.first] at h
  | cons e rest =>
    simp only [handler_map.first, List.head?_cons, Option.map_some', Option.some.injEq] at h
    simp [h]

theorem handler_map.next_mem (m : handler_map) (k0 k : io_id_t)
    (h : handler_map.next m k0 = some k) : k ∈ m.map Prod.fst := by
  simp only [handler_map.next, Option.map_eq_some'] at h
  obtain ⟨a, ha, rfl⟩ := h
  exact List.mem_map_of_mem _ (List.mem_of_find?_eq_some ha)

/-! ## Invariants of the registry -/

theorem outgoing_map.ordered_apply (m : outgoing_map) (op : map_op) (h : m.ordered) :
    (m.apply op).ordered := by
  cases op with
  | set k hd => exact handler_map.sorted_assign _ _ _ h
  | erase k => exact handler_map.sorted_erase _ _ h
  | send d =>
    unfold outgoing_map.apply outgoing_map.send outgoing_map.ordered
    split_ifs <;> exact h

theorem outgoing_map.cursor_valid_apply (m : outgoing_map) (op : map_op) (h : m.cursor_valid) :
    (m.apply op).cursor_valid := by
  cases op with
  | set k hd =>
    intro x hx
    exact (handler_map.keys_assign _ _ _ x).2 (Or.inr (h x hx))
  | erase k => intro x hx; simp [outgoing_map.apply, outgoing_map.erase] at hx
  | send d =>
    unfold outgoing_map.apply outgoing_map.send
    split_ifs with h1 h2
    · exact h
    · intro x hx
      simp only [Option.bind_eq_some] at hx
      obtain ⟨a, _, ha⟩ := hx
      exact handler_map.next_mem _ _ _ ha
    · intro x hx
      simp only [Option.bind_eq_some] at hx
      obtain ⟨a, _, ha⟩ := hx
      exact handler_map.next_mem _ _ _ ha

theorem outgoing_map.run_invariant (ops : List map_op) :
    (outgoing_map.run ops).ordered ∧ (outgoing_map.run ops).cursor_valid := by
  unfold outgoing_map.run
  induction ops using List.reverseRecOn with
  | nil =>
    refine ⟨?_, ?_⟩
    · simp [outgoing_map.ordered, outgoing_map.init]
    · intro k hk; simp [outgoing_map.init] at hk
  | append_singleton ops op ih =>
    rw [List.foldl_append]
    exact ⟨outgoing_map.ordered_apply _ _ ih.1, outgoing_map.cursor_valid_apply _ _ ih.2⟩

/-! ## Round-robin dispatch -/

theorem outgoing_map.send_at (pre post : handler_map) (e : io_id_t × outgoing_handler_t)
    (hs : ((pre ++ e :: post).map Prod.fst).Sorted (· < ·)) (d : data_ptr) :
    outgoing_map.send ⟨pre ++ e :: post, some e.1⟩ d
      = ⟨⟨pre ++ e :: post, handler_map.first post⟩, some e.2, none⟩ := by
  simp [outgoing_map.send, handler_map.find_mid pre post e hs, handler_map.next_mid pre post e hs]

theorem outgoing_map.send_end (e : io_id_t × outgoing_handler_t) (post : handler_map)
    (d : data_ptr) :
    outgoing_map.send ⟨e :: post, none⟩ d = outgoing_map.send ⟨e :: post, some e.1⟩ d := by
  simp [outgoing_map.send, handler_map.first]

theorem outgoing_map.sends_append (m : outgoing_map) (a b : List data_ptr) :
    m.sends (a ++ b)
      = (((m.sends a).1.sends b).1, (m.sends a).2.1 ++ ((m.sends a).1.sends b).2.1,
          (m.sends a).2.2 ++ ((m.sends a).1.sends b).2.2) := by
  induction a generalizing m with
  | nil => simp [outgoing_map.sends]
  | cons d ds ih => simp [outgoing_map.sends, ih]

theorem outgoing_map.sends_at (ds : List data_ptr) :
    ∀ (pre post : handler_map) (e : io_id_t × outgoing_handler_t),
      ((pre ++ e :: post).map Prod.fst).Sorted (· < ·) → ds.length ≤ (e :: post).length →
      outgoing_map.sends ⟨pre ++ e :: post, some e.1⟩ ds
        = (⟨pre ++ e :: post, handler_map.first ((e :: post).drop ds.length)⟩,
            ((e :: post).take ds.length).map (fun x => some x.2),
            List.replicate ds.length none) := by
  induction ds with
  | nil => intro pre post e _ _; simp [outgoing_map.sends, handler_map.first]
  | cons d ds ih =>
    intro pre post e hs hlen
    simp only [outgoing_map.sends, outgoing_map.send_at pre post e hs d]
    cases post with
    | nil =>
      have hds : ds = [] := by
        cases ds with
        | nil => rfl
        | cons _ _ => simp at hlen
      subst hds
      simp [outgoing_map.sends, handler_map.first]
    | cons e1 post1 =>
      have hs1 : (((pre ++ [e]) ++ e1 :: post1).map Prod.fst).Sorted (· < ·) := by
        simpa using hs
      have hlen1 : ds.length ≤ (e1 :: post1).length := by
        simp only [List.length_cons] at hlen ⊢
        omega
      have hfirst : handler_map.first (e1 :: post1) = some e1.1 := by simp [handler_map.first]
      have happ : pre ++ e :: e1 :: post1 = (pre ++ [e]) ++ e1 :: post1 := by simp
      rw [hfirst, happ, ih (pre ++ [e]) post1 e1 hs1 hlen1]
      simp [List.replicate_succ]

theorem outgoing_map.sends_end (l : handler_map) (ds : List data_ptr)
    (hs : (l.map Prod.fst).Sorted (· < ·)) (hlen : ds.length ≤ l.length) :
    (outgoing_map.sends ⟨l, none⟩ ds).2
      = ((l.take ds.length).map (fun x => some x.2), List.replicate ds.length none) := by
  cases ds with
  | nil => simp [outgoing_map.sends]
  | cons d ds =>
    cases l with
    | nil => simp at hlen
    | cons e post =>
      have h := outgoing_map.sends_at (d :: ds) [] post e (by simpa using hs) hlen
      simp only [List.nil_append] at h
      have h2 : outgoing_map.sends ⟨e :: post, none⟩ (d :: ds)
          = outgoing_map.sends ⟨e :: post, some e.1⟩ (d :: ds) := by
        simp only [outgoing_map.sends, outgoing_map.send_end]
      rw [h2, h]

theorem outgoing_map.sends_cycle (m : outgoing_map) (ho : m.ordered) (hv : m.cursor_valid)
    (ds : List data_ptr) (hlen : ds.length = m._handlers.length) :
    (m.sends ds).2.2 = List.replicate ds.length none ∧
      List.Perm (m.sends ds).2.1 (m._handlers.map (fun e => some e.2)) := by
  obtain ⟨l, c⟩ := m
  simp only at hlen
  cases c with
  | none =>
    rw [outgoing_map.sends_end l ds ho (le_of_eq hlen)]
    simp [hlen]
  | some k =>
    have hk : k ∈ l.map Prod.fst := hv k rfl
    obtain ⟨e, he, rfl⟩ := List.mem_map.1 hk
    obtain ⟨pre, post, rfl⟩ := List.append_of_mem he
    have hsplit : ds = ds.take (e :: post).length ++ ds.drop (e :: post).length :=
      (List.take_append_drop _ _).symm
    have hla : (ds.take (e :: post).length).length = (e :: post).length := by
      simp only [List.length_take, List.length_append] at hlen ⊢
      omega
    have hlb : (ds.drop (e :: post).length).length = pre.length := by
      simp only [List.length_drop, List.length_append] at hlen ⊢
      omega
    have h1 := outgoing_map.sends_at (ds.take (e :: post).length) pre post e ho (le_of_eq hla)
    rw [hla] at h1
    simp only [List.drop_length, List.take_length] at h1
    have hf : handler_map.first ([] : handler_map) = none := rfl
    rw [hf] at h1
    have h2 := outgoing_map.sends_end (pre ++ e :: post) (ds.drop (e :: post).length) ho
      (by rw [hlb]; simp)
    rw [hlb] at h2
    simp only [List.take_left'] at h2
    have h3 := outgoing_map.sends_append ⟨pre ++ e :: post, some e.1⟩
      (ds.take (e :: post).length) (ds.drop (e :: post).length)
    rw [← hsplit, h1] at h3
    simp only at h3
    rw [h3]
    simp only
    rw [h2]
    constructor
    · simp only [← List.replicate_add]
      congr 1
      simp only [List.length_append, List.length_cons] at hlen ⊢
      omega
    · simp only [List.map_append]
      exact List.perm_append_comm

theorem outgoing_map.sends_handlers (m : outgoing_map) (ds : List data_ptr) :
    (m.sends ds).1._handlers = m._handlers := by
  induction ds generalizing m with
  | nil => rfl
  | cons d ds ih =>
    simp only [outgoing_map.sends, ih]
    unfold outgoing_map.send
    split_ifs <;> rfl

theorem handler_map.find_of_mem_keys (m : handler_map) (k : io_id_t)
    (hk : k ∈ m.map Prod.fst) :
    ∃ h, handler_map.find m k = some h ∧ h ∈ m.map Prod.snd := by
  induction m with
  | nil => simp at hk
  | cons e rest ih =>
    by_cases he : e.1 = k
    · exact ⟨e.2, by simp [handler_map.find, he], by simp⟩
    · have hk1 : k ∈ rest.map Prod.fst := by
        simp only [List.map_cons, List.mem_cons] at hk
        rcases hk with hk | hk
        · exact absurd hk.symm he
        · exact hk
      obtain ⟨h, hf, hm⟩ := ih hk1
      refine ⟨h, ?_, by simp only [List.map_cons, List.mem_cons]; exact Or.inr hm⟩
      simpa [handler_map.find, he] using hf

theorem handler_map.erase_cons (e : io_id_t × outgoing_handler_t) (rest : handler_map)
    (k : io_id_t) :
    handler_map.erase (e :: rest) k
      = if e.1 = k then handler_map.erase rest k else e :: handler_map.erase rest k := by
  by_cases he : e.1 = k <;> simp [handler_map.erase, List.filter_cons, he]

theorem handler_map.find_cons (e : io_id_t × outgoing_handler_t) (rest : handler_map)
    (k : io_id_t) :
    handler_map.find (e :: rest) k = if e.1 = k then some e.2 else handler_map.find rest k := by
  by_cases he : e.1 = k <;> simp [handler_map.find, List.find?_cons, he]

theorem handler_map.find_erase_self (m : handler_map) (k : io_id_t) :
    handler_map.find (handler_map.erase m k) k = none := by
  induction m with
  | nil => rfl
  | cons e rest ih =>
    rw [handler_map.erase_cons]
    split_ifs with he
    · exact ih
    · rw [handler_map.find_cons, if_neg he]
      exact ih

theorem handler_map.find_erase_other (m : handler_map) (k k1 : io_id_t) (hne : k1 ≠ k) :
    handler_map.find (handler_map.erase m k) k1 = handler_map.find m k1 := by
  induction m with
  | nil => rfl
  | cons e rest ih =>
    rw [handler_map.erase_cons, handler_map.find_cons]
    split_ifs with he he1 he1
    · exact absurd (he1.symm.trans he) hne
    · exact ih
    · rw [handler_map.find_cons, if_pos he1]
    · rw [handler_map.find_cons, if_neg he1]
      exact ih

theorem handler_map.erase_erase (m : handler_map) (k : io_id_t) :
    handler_map.erase (handler_map.erase m k) k = handler_map.erase m k := by
  simp [handler_map.erase, List.filter_filter]

theorem handler_map.assign_perm (m : handler_map) (k : io_id_t) (h : outgoing_handler_t)
    (hk : k ∉ m.map Prod.fst) : List.Perm (handler_map.assign m k h) ((k, h) :: m) := by
  induction m with
  | nil => simp [handler_map.assign]
  | cons e rest ih =>
    obtain ⟨k0, h0⟩ := e
    simp only [List.map_cons, List.mem_cons, not_or] at hk
    unfold handler_map.assign
    split_ifs with h1 h2
    · exact List.Perm.refl _
    · exact absurd h2 hk.1
    · exact ((ih hk.2).cons (k0, h0)).trans (List.Perm.swap _ _ _)

theorem outgoing_map.run_sets (l : handler_map) (hnd : (l.map Prod.fst).Nodup) :
    (outgoing_map.run (outgoing_map.sets l))._iterator = none ∧
      List.Perm (outgoing_map.run (outgoing_map.sets l))._handlers l := by
  unfold outgoing_map.run outgoing_map.sets
  induction l using List.reverseRecOn with
  | nil => exact ⟨rfl, List.Perm.refl _⟩
  | append_singleton l e ih =>
    have hnd1 : (l.map Prod.fst).Nodup ∧ e.1 ∉ l.map Prod.fst := by
      rw [List.map_append, List.nodup_append] at hnd
      refine ⟨hnd.1, fun hmem => ?_⟩
      exact hnd.2.2 hmem (by simp)
    obtain ⟨hc, hp⟩ := ih hnd1.1
    rw [List.map_append, List.foldl_append]
    simp only [List.map_cons, List.map_nil, List.foldl_cons, List.foldl_nil,
      outgoing_map.apply, outgoing_map.set]
    refine ⟨hc, ?_⟩
    have hnot : e.1 ∉ (List.foldl outgoing_map.apply outgoing_map.init
        (List.map (fun e => map_op.set e.1 e.2) l))._handlers.map Prod.fst := by
      intro hmem
      exact hnd1.2 ((hp.map Prod.fst).mem_iff.1 hmem)
    exact (handler_map.assign_perm _ _ _ hnot).trans
      (((hp.cons e).trans (List.perm_append_singleton e l).symm))

theorem outgoing_map.send_empty (m : outgoing_map) (d : data_ptr) (h : m._handlers = []) :
    m.send d = ⟨m, none, d⟩ := by
  simp [outgoing_map.send, h]

theorem outgoing_map.send_nonempty (m : outgoing_map) (hv : m.cursor_valid) (d : data_ptr)
    (hne : m._handlers ≠ []) :
    (m.send d).ret = none ∧ (m.send d).map._handlers = m._handlers ∧
      ∃ h, (m.send d).handler = some h ∧ h ∈ m._handlers.map Prod.snd := by
  obtain ⟨l, c⟩ := m
  simp only at hne
  have hemp : l.isEmpty = false := by
    cases l with
    | nil => exact absurd rfl hne
    | cons _ _ => rfl
  cases c with
  | none =>
    cases l with
    | nil => exact absurd rfl hne
    | cons e rest =>
      refine ⟨rfl, rfl, e.2, ?_, by simp⟩
      simp [outgoing_map.send, handler_map.first, handler_map.find_cons]
  | some k =>
    obtain ⟨h, hf, hm⟩ := handler_map.find_of_mem_keys l k (hv k rfl)
    refine ⟨?_, ?_, h, ?_, hm⟩
    · simp [outgoing_map.send, hemp]
    · simp [outgoing_map.send, hemp]
    · simp [outgoing_map.send, hemp, hf]

/-! ## Claims on the registry -/

/-- C1: in every registry state reached from the constructor by a sequence of
`set`, `erase` and `send` calls, with `N` the number of handlers it holds, `N`
consecutive `send` calls each return `nullptr`, leave the table as it is, and
the handlers they invoke are, counted with multiplicity, exactly the `N`
registered ones: each registered handler is invoked exactly once. -/
theorem outgoing_map.send_round_robin_fair (ops : List map_op) (ds : List data_ptr)
    (hlen : ds.length = (outgoing_map.run ops)._handlers.length) :
    ((outgoing_map.run ops).sends ds).2.2 = List.replicate ds.length none ∧
      List.Perm ((outgoing_map.run ops).sends ds).2.1
        ((outgoing_map.run ops)._handlers.map (fun e => some e.2)) ∧
      ((outgoing_map.run ops).sends ds).1._handlers = (outgoing_map.run ops)._handlers := by
  have hinv := outgoing_map.run_invariant ops
  have h := outgoing_map.sends_cycle (outgoing_map.run ops) hinv.1 hinv.2 ds hlen
  exact ⟨h.1, h.2, outgoing_map.sends_handlers _ _⟩

theorem outgoing_map.send_round_robin_fair_witness :
    (outgoing_map.run [.set 2 20, .set 1 10, .send none, .set 3 30])
        = ⟨[(1, 10), (2, 20), (3, 30)], some 2⟩ ∧
      ((outgoing_map.run [.set 2 20, .set 1 10, .send none, .set 3 30]).sends
          [some [7], some [8], some [9]]).2.1 = [some 20, some 30, some 10] ∧
      (((outgoing_map.run [.set 2 20, .set 1 10, .send none, .set 3 30]).sends
          [some [7], some [8], some [9]]).2.2 = List.replicate 3 none ∧
        List.Perm ((outgoing_map.run [.set 2 20, .set 1 10, .send none, .set 3 30]).sends
          [some [7], some [8], some [9]]).2.1
          ((outgoing_map.run [.set 2 20, .set 1 10, .send none, .set 3 30])._handlers.map
            (fun e => some e.2)) ∧
        ((outgoing_map.run [.set 2 20, .set 1 10, .send none, .set 3 30]).sends
          [some [7], some [8], some [9]]).1._handlers
          = (outgoing_map.run [.set 2 20, .set 1 10, .send none, .set 3 30])._handlers) :=
  ⟨by decide, by decide,
    outgoing_map.send_round_robin_fair [.set 2 20, .set 1 10, .send none, .set 3 30]
      [some [7], some [8], some [9]] (by decide)⟩

/-- C6: `send(m)` on a registry with no handler returns `m`, invokes nothing and
leaves table and cursor as they are; on a registry with at least one handler
(and a valid cursor) it returns `nullptr`, keeps the table, and the one handler
it invokes with `m` is a registered one. -/
theorem outgoing_map.send_result_spec (m : outgoing_map) (hv : m.cursor_valid) (x : data_type) :
    (m._handlers = [] → m.send (some x) = ⟨m, none, some x⟩) ∧
      (m._handlers ≠ [] →
        (m.send (some x)).ret = none ∧ (m.send (some x)).map._handlers = m._handlers ∧
          ∃ h, (m.send (some x)).handler = some h ∧ h ∈ m._handlers.map Prod.snd) :=
  ⟨outgoing_map.send_empty m (some x), outgoing_map.send_nonempty m hv (some x)⟩

theorem outgoing_map.send_result_spec_witness :
    (outgoing_map.send ⟨[], none⟩ (some [5]) = ⟨⟨[], none⟩, none, some [5]⟩) ∧
      (outgoing_map.send ⟨[(1, 10), (2, 20)], some 2⟩ (some [5])).ret = none ∧
      (outgoing_map.send ⟨[(1, 10), (2, 20)], some 2⟩ (some [5])).handler = some 20 ∧
      ∃ h, (outgoing_map.send ⟨[(1, 10), (2, 20)], some 2⟩ (some [5])).handler = some h ∧
        h ∈ ([(1, 10), (2, 20)] : handler_map).map Prod.snd :=
  ⟨(outgoing_map.send_result_spec ⟨[], none⟩ (by decide) [5]).1 rfl,
    ((outgoing_map.send_result_spec ⟨[(1, 10), (2, 20)], some 2⟩ (by decide) [5]).2
      (by decide)).1,
    by decide,
    ((outgoing_map.send_result_spec ⟨[(1, 10), (2, 20)], some 2⟩ (by decide) [5]).2
      (by decide)).2.2⟩

/-- C7, as stated, fails: with the ids registered in the order 2, 1 the next
two `send` calls invoke the handler of 1 and then the handler of 2. -/
theorem outgoing_map.send_order_not_insertion :
    ¬ (∀ (l : handler_map) (ds : List data_ptr), (l.map Prod.fst).Nodup →
        ds.length = l.length →
        ((outgoing_map.run (outgoing_map.sets l)).sends ds).2.1 = l.map (fun e => some e.2)) := by
  intro h
  have h1 := h [(2, 20), (1, 10)] [some [7], some [8]] (by decide) (by decide)
  revert h1
  decide

/-- C7, amended: after `set` calls for distinct ids on a fresh registry, the
next `N` `send` calls invoke the registered handlers in ascending order of
connection id: in the order of the table, which holds exactly the registered
entries sorted by id. -/
theorem outgoing_map.send_order_ascending_id (l : handler_map) (ds : List data_ptr)
    (hnd : (l.map Prod.fst).Nodup) (hlen : ds.length = l.length) :
    ((outgoing_map.run (outgoing_map.sets l)).sends ds).2.1
        = (outgoing_map.run (outgoing_map.sets l))._handlers.map (fun e => some e.2) ∧
      ((outgoing_map.run (outgoing_map.sets l))._handlers.map Prod.fst).Sorted (· < ·) ∧
      List.Perm (outgoing_map.run (outgoing_map.sets l))._handlers l := by
  obtain ⟨hc, hp⟩ := outgoing_map.run_sets l hnd
  have ho := (outgoing_map.run_invariant (outgoing_map.sets l)).1
  refine ⟨?_, ho, hp⟩
  have hl : ds.length = (outgoing_map.run (outgoing_map.sets l))._handlers.length := by
    rw [hlen, hp.length_eq]
  have hm : outgoing_map.run (outgoing_map.sets l)
      = ⟨(outgoing_map.run (outgoing_map.sets l))._handlers, none⟩ := by
    rw [← hc]
  rw [hm, outgoing_map.sends_end _ ds ho (le_of_eq hl), hl]
  simp

theorem outgoing_map.send_order_ascending_id_witness :
    ((outgoing_map.run (outgoing_map.sets [(2, 20), (1, 10)])).sends [some [7], some [8]]).2.1
        = [some 10, some 20] ∧
      (((outgoing_map.run (outgoing_map.sets [(2, 20), (1, 10)])).sends
          [some [7], some [8]]).2.1
          = (outgoing_map.run (outgoing_map.sets [(2, 20), (1, 10)]))._handlers.map
              (fun e => some e.2) ∧
        ((outgoing_map.run (outgoing_map.sets [(2, 20), (1, 10)]))._handlers.map
            Prod.fst).Sorted (· < ·) ∧
        List.Perm (outgoing_map.run (outgoing_map.sets [(2, 20), (1, 10)]))._handlers
          [(2, 20), (1, 10)]) :=
  ⟨by decide,
    outgoing_map.send_order_ascending_id [(2, 20), (1, 10)] [some [7], some [8]]
      (by decide) (by decide)⟩

/-- C10: `erase(c); erase(c)` leaves the state of a single `erase(c)`; after
`erase(c)`, `has(c)` is false and `get(c)` is `nullptr`, and every other id
has the handler it had. -/
theorem outgoing_map.erase_idempotent (m : outgoing_map) (c : io_id_t) :
    (m.erase c).erase c = m.erase c ∧ (m.erase c).has c = false ∧ (m.erase c).get c = none ∧
      ∀ c1, c1 ≠ c → (m.erase c).get c1 = m.get c1 ∧ (m.erase c).has c1 = m.has c1 := by
  refine ⟨?_, ?_, ?_, ?_⟩
  · simp [outgoing_map.erase, handler_map.erase_erase]
  · simp [outgoing_map.has, outgoing_map.erase, handler_map.find_erase_self]
  · simp [outgoing_map.get, outgoing_map.erase, handler_map.find_erase_self]
  · intro c1 hne
    simp [outgoing_map.get, outgoing_map.has, outgoing_map.erase,
      handler_map.find_erase_other _ _ _ hne]

theorem outgoing_map.erase_idempotent_witness :
    (outgoing_map.erase ⟨[(1, 10), (2, 20), (3, 30)], some 3⟩ 2)
        = ⟨[(1, 10), (3, 30)], none⟩ ∧
      (outgoing_map.erase ⟨[(1, 10), (2, 20), (3, 30)], some 3⟩ 2).get 3
        = outgoing_map.get ⟨[(1, 10), (2, 20), (3, 30)], some 3⟩ 3 ∧
      (outgoing_map.erase ⟨[(1, 10), (2, 20), (3, 30)], some 3⟩ 2).has 3
        = outgoing_map.has ⟨[(1, 10), (2, 20), (3, 30)], some 3⟩ 3 :=
  ⟨by decide,
    (outgoing_map.erase_idempotent ⟨[(1, 10), (2, 20), (3, 30)], some 3⟩ 2).2.2.2 3 (by decide)⟩

/-! ## Lemmas on the source -/

theorem source.remotes_send_empty (invoke : invoke_t) (s : source) (d : data_ptr)
    (h : s._remotes._handlers = []) : source.remotes_send invoke s d = (s, [], d) := by
  simp [source.remotes_send, outgoing_map.send_empty _ d h]

theorem source.remotes_send_nonempty (invoke : invoke_t) (s : source) (d : data_ptr)
    (hv : s._remotes.cursor_valid) (hne : s._remotes._handlers ≠ []) :
    ∃ h, source.remotes_send invoke s d
      = (invoke h d { s with _remotes := (s._remotes.send d).map }, [⟨h, d⟩], none) := by
  obtain ⟨hret, _, h, hh, _⟩ := outgoing_map.send_nonempty s._remotes hv d hne
  exact ⟨h, by simp [source.remotes_send, hh, hret]⟩

theorem source.remotes_send_valid (invoke : invoke_t)
    (hinv : ∀ h d (t : source), t._remotes.cursor_valid → (invoke h d t)._remotes.cursor_valid)
    (s : source) (d : data_ptr) (hv : s._remotes.cursor_valid) :
    (source.remotes_send invoke s d).1._remotes.cursor_valid := by
  have h1 : (s._remotes.send d).map.cursor_valid :=
    outgoing_map.cursor_valid_apply s._remotes (.send d) hv
  unfold source.remotes_send
  cases hh : (s._remotes.send d).handler with
  | none => simpa [hh] using h1
  | some h => simpa [hh] using hinv h d _ h1

theorem source.replay_valid (invoke : invoke_t)
    (hinv : ∀ h d (t : source), t._remotes.cursor_valid → (invoke h d t)._remotes.cursor_valid)
    (wd : wait_data_t) :
    ∀ s : source, s._remotes.cursor_valid →
      (source.replay invoke s wd).1._remotes.cursor_valid := by
  induction wd with
  | nil => intro s hv; exact hv
  | cons x rest ih =>
    intro s hv
    have h1 := source.remotes_send_valid invoke hinv s x hv
    unfold source.replay
    cases hr : (source.remotes_send invoke s x).2.2 with
    | some d => simpa [hr] using h1
    | none => simpa [hr] using ih _ h1

theorem source.apply_valid (invoke : invoke_t)
    (hinv : ∀ h d (t : source), t._remotes.cursor_valid → (invoke h d t)._remotes.cursor_valid)
    (s : source) (op : source_op) (hv : s._remotes.cursor_valid) :
    (s.apply invoke op)._remotes.cursor_valid := by
  cases op with
  | reg k h =>
    have h1 : (s._remotes.set k h).cursor_valid :=
      outgoing_map.cursor_valid_apply s._remotes (.set k h) hv
    exact source.replay_valid invoke hinv _ _ h1
  | unreg k => exact outgoing_map.cursor_valid_apply s._remotes (.erase k) hv
  | send d =>
    have h1 := source.remotes_send_valid invoke hinv s d hv
    unfold source.apply source.send
    cases hr : (source.remotes_send invoke s d).2.2 with
    | none => simpa [hr] using h1
    | some dd =>
      simp only [hr]
      split_ifs <;> exact h1

theorem source.run_valid (invoke : invoke_t)
    (hinv : ∀ h d (t : source), t._remotes.cursor_valid → (invoke h d t)._remotes.cursor_valid)
    (ops : List source_op) :
    ∀ s : source, s._remotes.cursor_valid → (s.run invoke ops)._remotes.cursor_valid := by
  induction ops with
  | nil => intro s hv; exact hv
  | cons op ops ih =>
    intro s hv
    exact ih _ (source.apply_valid invoke hinv s op hv)

theorem reentrant_valid (body : List source_op) (h : outgoing_handler_t) (d : data_ptr)
    (t : source) (hv : t._remotes.cursor_valid) :
    (reentrant body h d t)._remotes.cursor_valid :=
  source.run_valid quiet (fun _ _ _ hq => hq) body t hv

theorem source.replay_prefix (invoke : invoke_t)
    (hinv : ∀ h d (t : source), t._remotes.cursor_valid → (invoke h d t)._remotes.cursor_valid)
    (wd : wait_data_t) :
    ∀ s : source, s._remotes.cursor_valid → (∀ x ∈ wd, x ≠ none) →
      ∃ j, j ≤ wd.length ∧
        (source.replay invoke s wd).2.1.map call.data = wd.take j ∧
        (source.replay invoke s wd).2.2 = wd.drop j ∧
        (j < wd.length → (source.replay invoke s wd).1._remotes._handlers = []) := by
  induction wd with
  | nil => intro s _ _; exact ⟨0, le_refl _, rfl, rfl, fun h => absurd h (by simp)⟩
  | cons x rest ih =>
    intro s hv hnn
    obtain ⟨v, rfl⟩ : ∃ v, x = some v := by
      cases x with
      | none => exact absurd rfl (hnn none (by simp))
      | some v => exact ⟨v, rfl⟩
    by_cases he : s._remotes._handlers = []
    · refine ⟨0, Nat.zero_le _, ?_, ?_, fun _ => ?_⟩ <;>
        simp [source.replay, source.remotes_send_empty invoke s (some v) he, he]
    · obtain ⟨h, hh⟩ := source.remotes_send_nonempty invoke s (some v) hv he
      have hv1 : (source.remotes_send invoke s (some v)).1._remotes.cursor_valid :=
        source.remotes_send_valid invoke hinv s (some v) hv
      rw [hh] at hv1
      obtain ⟨j, hj, hcalls, hrest, hfail⟩ :=
        ih _ hv1 (fun y hy => hnn y (List.mem_cons_of_mem _ hy))
      refine ⟨j + 1, by simpa using hj, ?_, ?_, fun hlt => ?_⟩
      · simp [source.replay, hh, hcalls]
      · simp [source.replay, hh, hrest]
      · have hlt1 : j < rest.length := by simpa using hlt
        simpa [source.replay, hh] using hfail hlt1

theorem source.replay_single (A : io_id_t) (h : outgoing_handler_t) (wd : wait_data_t) :
    ∀ s : source, s._remotes = ⟨[(A, h)], none⟩ →
      source.replay quiet s wd = (s, wd.map (fun d => ⟨h, d⟩), []) := by
  induction wd with
  | nil => intro s _; rfl
  | cons x rest ih =>
    intro s hs
    have h1 : source.remotes_send quiet s x = (s, [⟨h, x⟩], none) := by
      obtain ⟨a, b, c, m, w⟩ := s
      simp only at hs
      subst hs
      simp [source.remotes_send, outgoing_map.send, handler_map.first, handler_map.find_cons,
        handler_map.next, quiet]
    simp [source.replay, h1, ih s hs]

/-! ## Claims on the source -/

/-- C2: the code breaks the bound.  With `outgoing_limit = 2` and the backlog
`[m1, m2]`, `reg(7, h)` where `h`, when invoked, calls `unreg(7)` and sends two
messages on the same source, ends with a backlog of three entries: the
re-insertion in `reg` does not test `_outgoing_limit`, as `send` does. -/
theorem source.reg_backlog_exceeds_limit :
    (source.run quiet (source.init 0 0 2) [.send (some [1]), .send (some [2])])._wait_data
        = [some [1], some [2]] ∧
      ((source.run quiet (source.init 0 0 2) [.send (some [1]), .send (some [2])]).reg
          (reentrant [.unreg 7, .send (some [8]), .send (some [9])]) 7 70).1._wait_data
        = [some [2], some [8], some [9]] ∧
      ((source.run quiet (source.init 0 0 2) [.send (some [1]), .send (some [2])]).reg
          (reentrant [.unreg 7, .send (some [8]), .send (some [9])]) 7 70).1._outgoing_limit
        = 2 ∧
      ¬ (((source.run quiet (source.init 0 0 2) [.send (some [1]), .send (some [2])]).reg
          (reentrant [.unreg 7, .send (some [8]), .send (some [9])]) 7 70).1._wait_data.length
        ≤ ((source.run quiet (source.init 0 0 2) [.send (some [1]), .send (some [2])]).reg
          (reentrant [.unreg 7, .send (some [8]), .send (some [9])]) 7 70).1._outgoing_limit) := by
  decide

/-- C3: with no connection registered, `send(m)` appends `m` to the backlog and
returns `nullptr` when the backlog is shorter than `outgoing_limit`, and
otherwise returns `m` and leaves the source as it is; no handler is invoked. -/
theorem source.send_no_connection (invoke : invoke_t) (s : source) (x : data_type)
    (h : s._remotes._handlers = []) :
    (s._wait_data.length < s._outgoing_limit →
        s.send invoke (some x) = ({ s with _wait_data := s._wait_data ++ [some x] }, [], none)) ∧
      (¬ s._wait_data.length < s._outgoing_limit →
        s.send invoke (some x) = (s, [], some x)) := by
  constructor <;> intro hl <;>
    simp [source.send, source.remotes_send_empty invoke s (some x) h, hl]

theorem source.send_no_connection_witness :
    (source.run quiet (source.init 0 0 2)
        [.send (some [1]), .send (some [2]), .send (some [3])])._wait_data
        = [some [1], some [2]] ∧
      source.send quiet (source.init 0 0 2) (some [1])
        = ({ source.init 0 0 2 with _wait_data := [some [1]] }, [], none) ∧
      source.send quiet (source.run quiet (source.init 0 0 2) [.send (some [1]), .send (some [2])])
          (some [3])
        = (source.run quiet (source.init 0 0 2) [.send (some [1]), .send (some [2])], [],
            some [3]) :=
  ⟨by decide,
    (source.send_no_connection quiet (source.init 0 0 2) [1] rfl).1 (by decide),
    (source.send_no_connection quiet
      (source.run quiet (source.init 0 0 2) [.send (some [1]), .send (some [2])]) [3] rfl).2
      (by decide)⟩

/-- C4: on a source with no connection registered and the backlog
`[m1, ..., mk]`, `reg(A, h)` with a handler that does not call back into the
source invokes `h` exactly `k` times, with `m1, ..., mk` in that order, and
leaves the backlog empty and `A` registered with `h`. -/
theorem source.reg_drains_backlog (s : source) (A : io_id_t) (h : outgoing_handler_t)
    (hempty : s._remotes._handlers = []) (hv : s._remotes.cursor_valid) :
    s.reg quiet A h
      = ({ s with _remotes := ⟨[(A, h)], none⟩, _wait_data := [] },
          s._wait_data.map (fun d => ⟨h, d⟩)) := by
  obtain ⟨a, b, c, ⟨l, it⟩, w⟩ := s
  simp only at hempty
  subst hempty
  have hit : it = none := by
    cases it with
    | none => rfl
    | some k => exact absurd (hv k rfl) (by simp)
  subst hit
  simp [source.reg, outgoing_map.set, handler_map.assign,
    source.replay_single A h w ⟨a, b, c, ⟨[(A, h)], none⟩, []⟩ rfl]

theorem source.reg_drains_backlog_witness :
    source.reg quiet ⟨0, 0, 2, ⟨[], none⟩, [some [1], some [2]]⟩ 7 70
      = (⟨0, 0, 2, ⟨[(7, 70)], none⟩, []⟩, [⟨70, some [1]⟩, ⟨70, some [2]⟩]) :=
  source.reg_drains_backlog ⟨0, 0, 2, ⟨[], none⟩, [some [1], some [2]]⟩ 7 70 rfl (by decide)

/-- C5: `reg` on the taken backlog `[m1, ..., mk]` (no null entry), with
handlers that may call back into the source through operations keeping the
cursor valid: there is `j` such that the handlers were handed exactly the first
`j` entries, in order; the new backlog is the remaining entries in their
order, followed by the backlog that built up during the replay; and when the
replay stopped early, it stopped at a dispatch on a registry with no handler. -/
theorem source.reg_partial_drain (invoke : invoke_t) (s : source) (io_id : io_id_t)
    (h : outgoing_handler_t) (hv : s._remotes.cursor_valid)
    (hinv : ∀ h d (t : source), t._remotes.cursor_valid → (invoke h d t)._remotes.cursor_valid)
    (hnn : ∀ x ∈ s._wait_data, x ≠ none) :
    ∃ j, j ≤ s._wait_data.length ∧
      (s.reg invoke io_id h).2.map call.data = s._wait_data.take j ∧
      (s.reg invoke io_id h).1._wait_data
        = s._wait_data.drop j ++
          (source.replay invoke
            { s with _remotes := s._remotes.set io_id h, _wait_data := [] }
            s._wait_data).1._wait_data ∧
      (j < s._wait_data.length →
        (source.replay invoke
            { s with _remotes := s._remotes.set io_id h, _wait_data := [] }
            s._wait_data).1._remotes._handlers = []) := by
  have hv1 : (s._remotes.set io_id h).cursor_valid :=
    outgoing_map.cursor_valid_apply s._remotes (.set io_id h) hv
  obtain ⟨j, hj, hcalls, hrest, hfail⟩ :=
    source.replay_prefix invoke hinv s._wait_data
      { s with _remotes := s._remotes.set io_id h, _wait_data := [] } hv1 hnn
  exact ⟨j, hj, hcalls, by simp [source.reg, hrest], hfail⟩

theorem source.reg_partial_drain_witness :
    source.reg (reentrant [.unreg 7, .send (some [8])])
        ⟨0, 0, 5, ⟨[], none⟩, [some [1], some [2], some [3]]⟩ 7 70
        = (⟨0, 0, 5, ⟨[], none⟩, [some [2], some [3], some [8]]⟩, [⟨70, some [1]⟩]) ∧
      ∃ j, j ≤ 3 ∧
        (source.reg (reentrant [.unreg 7, .send (some [8])])
          ⟨0, 0, 5, ⟨[], none⟩, [some [1], some [2], some [3]]⟩ 7 70).2.map call.data
          = [some [1], some [2], some [3]].take j ∧
        (source.reg (reentrant [.unreg 7, .send (some [8])])
          ⟨0, 0, 5, ⟨[], none⟩, [some [1], some [2], some [3]]⟩ 7 70).1._wait_data
          = [some [1], some [2], some [3]].drop j ++
            (source.replay (reentrant [.unreg 7, .send (some [8])])
              ⟨0, 0, 5, outgoing_map.set ⟨[], none⟩ 7 70, []⟩
              [some [1], some [2], some [3]]).1._wait_data ∧
        (j < 3 →
          (source.replay (reentrant [.unreg 7, .send (some [8])])
              ⟨0, 0, 5, outgoing_map.set ⟨[], none⟩ 7 70, []⟩
              [some [1], some [2], some [3]]).1._remotes._handlers = []) :=
  ⟨by decide,
    source.reg_partial_drain (reentrant [.unreg 7, .send (some [8])])
      ⟨0, 0, 5, ⟨[], none⟩, [some [1], some [2], some [3]]⟩ 7 70 (by decide)
      (reentrant_valid [.unreg 7, .send (some [8])]) (by decide)⟩

/-! ## Claims on the managed connection -/

theorem wrap64_of_in64 (x : Int) (h : in64 x) : wrap64 x = x := by
  unfold in64 at h
  unfold wrap64
  omega

theorem mtconn.stop_connect_time (c : mtconn) : (c.stop).1._connect_time = c._connect_time := by
  unfold mtconn.stop; split_ifs <;> rfl

theorem mtconn.stop_timeout (c : mtconn) :
    (c.stop).1._reconnect_timeout_ms = c._reconnect_timeout_ms := by
  unfold mtconn.stop; split_ifs <;> rfl

/-- C8, as stated, fails: on a started connection, after `stop()`, an error
notification arms the reconnect timer and the timer callback, completed without
`operation_aborted`, issues a connect attempt. -/
theorem mtconn.stop_does_not_end_reconnects :
    (mtconn.steps quiet ⟨500, false, false, false, false⟩ (mtconn.init (source.init 0 0 2))
        [.start, .stop, .error 1 1200, .timer 0]).2
        = [[.connect], [.transport_stop],
            [.timer_expires_from_now 0, .timer_async_wait], [.connect]] ∧
      ¬ (∀ (opt : options) (c : mtconn) (es : List event), event.start ∉ es →
          ∀ acts ∈ (mtconn.steps quiet opt (c.stop).1 es).2, ∀ a ∈ acts,
            a.reconnects = false) := by
  refine ⟨by decide, fun h => ?_⟩
  have h1 := h ⟨500, false, false, false, false⟩
    ((mtconn.init (source.init 0 0 2)).start ⟨500, false, false, false, false⟩).1
    [.error 1 1200, .timer 0] (by decide)
    [.connect] (by decide) .connect (by decide)
  revert h1
  decide

/-- C8, amended: `stop()` itself clears the started flag, arms no timer and
issues no connect attempt, and neither do a connect notification or a timer
callback completed with `operation_aborted`; but the handlers do not consult
the started flag: on a live connection that was stopped, an error or shutdown
notification still arms the reconnect timer with the computed wait, and a timer
callback completed without `operation_aborted` still issues a connect
attempt. -/
theorem mtconn.stop_effects (opt : options) (c : mtconn) (ec : error_code) (now : time_t)
    (io_id : io_id_t) :
    (c.stop).1._started = false ∧
      (∀ a ∈ (c.stop).2, a.reconnects = false) ∧
      (∀ a ∈ (mtconn.connect_handler opt (some (c.stop).1)).2, a.reconnects = false) ∧
      (mtconn.timer_handler operation_aborted (some (c.stop).1)).2 = [] ∧
      action.timer_expires_from_now ((c.stop).1.reconnect_time now)
        ∈ (mtconn.error_handler opt ec now (some (c.stop).1)).2 ∧
      action.timer_expires_from_now ((c.stop).1.reconnect_time now)
        ∈ (mtconn.shutdown_handler opt io_id now (some (c.stop).1)).2 ∧
      (ec ≠ operation_aborted →
        (mtconn.timer_handler ec (some (c.stop).1)).2 = [.connect]) := by
  refine ⟨?_, ?_, ?_, ?_, ?_, ?_, ?_⟩
  · unfold mtconn.stop; split_ifs with h
    · rfl
    · simpa using h
  · unfold mtconn.stop; split_ifs <;> simp [action.reconnects]
  · unfold mtconn.connect_handler
    cases opt.connect_handler <;> simp [action.reconnects]
  · simp [mtconn.timer_handler]
  · simp [mtconn.error_handler]
  · simp [mtconn.shutdown_handler, mtconn.error_handler, mtconn.reconnect_time,
      mtconn.stop_connect_time, mtconn.stop_timeout]
  · intro hne
    simp [mtconn.timer_handler, hne]

theorem mtconn.stop_effects_witness :
    (mtconn.timer_handler 0 (some (mtconn.stop ⟨true, 500, 1000, source.init 0 0 2⟩).1)).2
      = [.connect] :=
  (mtconn.stop_effects ⟨500, false, false, false, false⟩ ⟨true, 500, 1000, source.init 0 0 2⟩
    0 1200 7).2.2.2.2.2.2 (by decide)

/-- C9, as stated, fails: with `_connect_time = 2^63 - 1`, the clock reading
`-1` and the timeout 500, all of them `time_t` values, the subtraction
`now - _connect_time` wraps and the error handler arms the reconnect timer with
`-9223372036854775308`, which is not `max(0, 500 - (now - _connect_time))`. -/
theorem mtconn.reconnect_wait_overflow :
    mtconn.error_handler ⟨500, false, false, false, false⟩ 1 (-1)
        (some ⟨true, 500, 9223372036854775807, source.init 0 0 2⟩)
        = (some ⟨true, 500, -1, source.init 0 0 2⟩,
            [.timer_expires_from_now (-9223372036854775308), .timer_async_wait]) ∧
      ¬ (∀ (opt : options) (ec : error_code) (c : mtconn) (now : time_t),
          in64 now → in64 c._connect_time → in64 c._reconnect_timeout_ms →
          mtconn.error_handler opt ec now (some c)
            = (some { c with _connect_time := now },
                (if opt.error_handler then [action.user_error ec] else []) ++
                  [.timer_expires_from_now
                      (max 0 (c._reconnect_timeout_ms - (now - c._connect_time))),
                    .timer_async_wait])) := by
  refine ⟨by decide, fun h => ?_⟩
  have h1 := h ⟨500, false, false, false, false⟩ 1
    ⟨true, 500, 9223372036854775807, source.init 0 0 2⟩ (-1) (by decide) (by decide) (by decide)
  revert h1
  decide

/-- C9, amended: when the two `time_t` subtractions do not overflow, the error
handler arms the reconnect timer with
`max(0, reconnect_timeout_ms - (now - _connect_time))` and afterwards
`_connect_time = now`. -/
theorem mtconn.reconnect_wait_formula (opt : options) (ec : error_code) (c : mtconn)
    (now : time_t) (h1 : in64 (now - c._connect_time))
    (h2 : now - c._connect_time ≤ c._reconnect_timeout_ms →
      in64 (c._reconnect_timeout_ms - (now - c._connect_time))) :
    mtconn.error_handler opt ec now (some c)
      = (some { c with _connect_time := now },
          (if opt.error_handler then [action.user_error ec] else []) ++
            [.timer_expires_from_now
                (max 0 (c._reconnect_timeout_ms - (now - c._connect_time))),
              .timer_async_wait]) := by
  have hw : c.reconnect_time now
      = max 0 (c._reconnect_timeout_ms - (now - c._connect_time)) := by
    unfold mtconn.reconnect_time
    simp only [wrap64_of_in64 _ h1]
    split_ifs with hgt
    · rw [max_eq_left (sub_nonpos.mpr (le_of_lt hgt))]
    · rw [wrap64_of_in64 _ (h2 (not_lt.mp hgt)), max_eq_right (sub_nonneg.mpr (not_lt.mp hgt))]
  simp [mtconn.error_handler, hw]

theorem mtconn.reconnect_wait_formula_witness :
    mtconn.error_handler ⟨500, false, false, false, false⟩ 1 1200
        (some ⟨true, 500, 1000, source.init 0 0 2⟩)
        = (some ⟨true, 500, 1200, source.init 0 0 2⟩,
            [.timer_expires_from_now 300, .timer_async_wait]) ∧
      mtconn.error_handler ⟨500, false, false, false, false⟩ 1 1700
        (some ⟨true, 500, 1000, source.init 0 0 2⟩)
        = (some ⟨true, 500, 1700, source.init 0 0 2⟩,
            [.timer_expires_from_now 0, .timer_async_wait]) :=
  ⟨mtconn.reconnect_wait_formula ⟨500, false, false, false, false⟩ 1
      ⟨true, 500, 1000, source.init 0 0 2⟩ 1200 (by decide) (fun _ => by decide),
    mtconn.reconnect_wait_formula ⟨500, false, false, false, false⟩ 1
      ⟨true, 500, 1000, source.init 0 0 2⟩ 1700 (by decide) (fun _ => by decide)⟩


/-! ## Further claims on the registry -/

theorem handler_map.find_mem (m : handler_map) (k : io_id_t) (h : outgoing_handler_t)
    (hf : handler_map.find m k = some h) : (k, h) ∈ m := by
  simp only [handler_map.find, Option.map_eq_some'] at hf
  obtain ⟨a, ha, rfl⟩ := hf
  have hk : a.1 = k := by simpa using List.find?_some ha
  have hm := List.mem_of_find?_eq_some ha
  rw [← hk]
  exact hm

/-- C11: after `erase(c)` the cursor is at `end()`, whatever it was before and
whether or not `c` was registered; if a handler remains, the next `send`
returns `nullptr` and invokes the handler of the first entry of the table,
which in an ordered table is the entry of the least id. -/
theorem outgoing_map.erase_restarts_rotation (m : outgoing_map) (c : io_id_t) (d : data_ptr) :
    (m.erase c)._iterator = none ∧
      ∀ e rest, (m.erase c)._handlers = e :: rest →
        ((m.erase c).send d).handler = some e.2 ∧ ((m.erase c).send d).ret = none ∧
          (m.ordered → ∀ k ∈ rest.map Prod.fst, e.1 < k) := by
  refine ⟨rfl, fun e rest he => ⟨?_, ?_, fun ho k hk => ?_⟩⟩
  · simp [outgoing_map.send, outgoing_map.erase, handler_map.first,
      handler_map.find_cons] at he ⊢
    simp [he, handler_map.first, handler_map.find_cons]
  · simp [outgoing_map.send, outgoing_map.erase] at he ⊢
    simp [he]
  · have hs := handler_map.sorted_erase m._handlers c ho
    have he1 : handler_map.erase m._handlers c = e :: rest := he
    rw [he1] at hs
    simp only [List.map_cons, List.sorted_cons] at hs
    exact hs.1 k hk

theorem outgoing_map.erase_restarts_rotation_witness :
    outgoing_map.erase ⟨[(1, 10), (2, 20), (3, 30)], some 3⟩ 1 = ⟨[(2, 20), (3, 30)], none⟩ ∧
      ((outgoing_map.erase ⟨[(1, 10), (2, 20), (3, 30)], some 3⟩ 1).send (some [7])).handler
        = some 20 ∧
      ((outgoing_map.erase ⟨[(1, 10), (2, 20), (3, 30)], some 3⟩ 1).send (some [7])).ret = none ∧
      (outgoing_map.ordered ⟨[(1, 10), (2, 20), (3, 30)], some 3⟩ →
        ∀ k ∈ ([(3, 30)] : handler_map).map Prod.fst, 2 < k) :=
  ⟨by decide,
    (outgoing_map.erase_restarts_rotation ⟨[(1, 10), (2, 20), (3, 30)], some 3⟩ 1
      (some [7])).2 (2, 20) [(3, 30)] (by decide)⟩

/-- C16: in every state reached from the constructor by a sequence of `set`,
`erase` and `send` calls, the cursor is at `end()` or names an id present in
the table; the dereference in `send` then reads the handler stored under that
id, and a `send` on a non-empty table always finds a registered handler. -/
theorem outgoing_map.cursor_always_valid (ops : List map_op) (d : data_ptr) :
    (∀ k, (outgoing_map.run ops)._iterator = some k →
        k ∈ (outgoing_map.run ops)._handlers.map Prod.fst ∧
          ∃ h, (k, h) ∈ (outgoing_map.run ops)._handlers ∧
            ((outgoing_map.run ops).send d).handler = some h) ∧
      ((outgoing_map.run ops)._handlers ≠ [] →
        ∃ h, ((outgoing_map.run ops).send d).handler = some h ∧
          h ∈ (outgoing_map.run ops)._handlers.map Prod.snd) := by
  have hv := (outgoing_map.run_invariant ops).2
  refine ⟨fun k hk => ⟨hv k hk, ?_⟩, fun hne => ?_⟩
  · obtain ⟨h, hf, _⟩ := handler_map.find_of_mem_keys _ k (hv k hk)
    refine ⟨h, handler_map.find_mem _ _ _ hf, ?_⟩
    have hne : (outgoing_map.run ops)._handlers ≠ [] := by
      intro he
      have := hv k hk
      rw [he] at this
      simp at this
    have hemp : (outgoing_map.run ops)._handlers.isEmpty = false := by
      cases hl : (outgoing_map.run ops)._handlers with
      | nil => exact absurd hl hne
      | cons _ _ => rfl
    simp [outgoing_map.send, hemp, hk, hf]
  · exact (outgoing_map.send_nonempty _ hv d hne).2.2

theorem outgoing_map.cursor_always_valid_witness :
    outgoing_map.run [.set 2 20, .set 1 10, .send none, .set 3 30, .send none, .erase 7, .send none]
        = ⟨[(1, 10), (2, 20), (3, 30)], some 2⟩ ∧
      ∃ h, ((outgoing_map.run [.set 2 20, .set 1 10, .send none, .set 3 30, .send none, .erase 7,
          .send none]).send (some [5])).handler = some h ∧
        h ∈ (outgoing_map.run [.set 2 20, .set 1 10, .send none, .set 3 30, .send none, .erase 7,
          .send none])._handlers.map Prod.snd :=
  ⟨by decide,
    (outgoing_map.cursor_always_valid [.set 2 20, .set 1 10, .send none, .set 3 30, .send none,
      .erase 7, .send none] (some [5])).2 (by decide)⟩

/-! ## Further claims on the source -/

/-- C14: `unreg(c)` leaves the backlog, the limit, the incoming handler and the
source id as they are; the registry becomes `_remotes.erase(c)`, in which every
other id keeps its handler.  `unreg` makes no handler invocation: it has none
to return. -/
theorem source.unreg_frame (s : source) (c : io_id_t) :
    (s.unreg c)._wait_data = s._wait_data ∧
      (s.unreg c)._outgoing_limit = s._outgoing_limit ∧
      (s.unreg c)._source_handler = s._source_handler ∧
      (s.unreg c)._source_id = s._source_id ∧
      (s.unreg c)._remotes = s._remotes.erase c ∧
      ∀ k, k ≠ c → (s.unreg c)._remotes.get k = s._remotes.get k := by
  refine ⟨rfl, rfl, rfl, rfl, rfl, fun k hk => ?_⟩
  simp [source.unreg, outgoing_map.get, outgoing_map.erase,
    handler_map.find_erase_other _ _ _ hk]

theorem source.unreg_frame_witness :
    source.unreg ⟨0, 0, 2, ⟨[(1, 10), (2, 20)], some 2⟩, [some [1]]⟩ 2
        = ⟨0, 0, 2, ⟨[(1, 10)], none⟩, [some [1]]⟩ ∧
      (source.unreg ⟨0, 0, 2, ⟨[(1, 10), (2, 20)], some 2⟩, [some [1]]⟩ 2)._remotes.get 1
        = outgoing_map.get ⟨[(1, 10), (2, 20)], some 2⟩ 1 :=
  ⟨by decide,
    (source.unreg_frame ⟨0, 0, 2, ⟨[(1, 10), (2, 20)], some 2⟩, [some [1]]⟩ 2).2.2.2.2.2 1
      (by decide)⟩

theorem handler_map.assign_ne_nil (m : handler_map) (k : io_id_t) (h : outgoing_handler_t) :
    handler_map.assign m k h ≠ [] := by
  intro he
  have hk := (handler_map.keys_assign m k h k).2 (Or.inl rfl)
  rw [he] at hk
  simp at hk

theorem source.remotes_send_quiet_nonempty (s : source) (d : data_ptr)
    (hv : s._remotes.cursor_valid) (hne : s._remotes._handlers ≠ []) :
    (source.remotes_send quiet s d).2.2 = none ∧
      (source.remotes_send quiet s d).1._wait_data = s._wait_data ∧
      (source.remotes_send quiet s d).1._remotes._handlers = s._remotes._handlers ∧
      (source.remotes_send quiet s d).1._remotes.cursor_valid := by
  obtain ⟨h, hh⟩ := source.remotes_send_nonempty quiet s d hv hne
  have hm := (outgoing_map.send_nonempty s._remotes hv d hne).2.1
  have hv1 : (s._remotes.send d).map.cursor_valid :=
    outgoing_map.cursor_valid_apply s._remotes (.send d) hv
  rw [hh]
  exact ⟨rfl, rfl, hm, hv1⟩

theorem source.replay_quiet_nonempty (wd : wait_data_t) :
    ∀ s : source, s._remotes.cursor_valid → s._remotes._handlers ≠ [] →
      (source.replay quiet s wd).2.2 = [] ∧
        (source.replay quiet s wd).1._wait_data = s._wait_data ∧
        (source.replay quiet s wd).1._remotes._handlers = s._remotes._handlers ∧
        (source.replay quiet s wd).1._remotes.cursor_valid := by
  induction wd with
  | nil => intro s hv _; exact ⟨rfl, rfl, rfl, hv⟩
  | cons x rest ih =>
    intro s hv hne
    obtain ⟨hret, hw, hh, hv1⟩ := source.remotes_send_quiet_nonempty s x hv hne
    obtain ⟨i1, i2, i3, i4⟩ := ih (source.remotes_send quiet s x).1 hv1 (by rw [hh]; exact hne)
    unfold source.replay
    simp only [hret]
    exact ⟨i1, i2.trans hw, i3.trans hh, i4⟩

/-- The invariant of a source used sequentially: the cursor is valid and a
non-empty backlog comes with an empty registry. -/
theorem source.apply_quiet_inv (s : source) (op : source_op)
    (hv : s._remotes.cursor_valid) (hb : s._wait_data ≠ [] → s._remotes._handlers = []) :
    (s.apply quiet op)._remotes.cursor_valid ∧
      ((s.apply quiet op)._wait_data ≠ [] → (s.apply quiet op)._remotes._handlers = []) := by
  refine ⟨source.apply_valid quiet (fun _ _ _ hq => hq) s op hv, ?_⟩
  cases op with
  | reg k h =>
    have hv1 : (s._remotes.set k h).cursor_valid :=
      outgoing_map.cursor_valid_apply s._remotes (.set k h) hv
    obtain ⟨r1, r2, _, _⟩ := source.replay_quiet_nonempty s._wait_data
      { s with _remotes := s._remotes.set k h, _wait_data := [] } hv1
      (handler_map.assign_ne_nil _ _ _)
    intro hne
    exfalso
    apply hne
    simp only [source.apply, source.reg, r1, r2, List.nil_append]
  | unreg k =>
    intro hne
    have he := hb hne
    simp [source.apply, source.unreg, outgoing_map.erase, handler_map.erase, he]
  | send d =>
    by_cases he : s._remotes._handlers = []
    · intro _
      simp only [source.apply, source.send, source.remotes_send_empty quiet s d he]
      cases d with
      | none => exact he
      | some dd =>
        simp only
        split_ifs <;> exact he
    · obtain ⟨hret, hw, _, _⟩ := source.remotes_send_quiet_nonempty s d hv he
      intro hne
      exfalso
      apply hne
      simp only [source.apply, source.send, hret, hw]
      by_contra hcon
      exact he (hb hcon)

theorem source.run_quiet_inv (ops : List source_op) :
    ∀ s : source, s._remotes.cursor_valid → (s._wait_data ≠ [] → s._remotes._handlers = []) →
      (s.run quiet ops)._remotes.cursor_valid ∧
        ((s.run quiet ops)._wait_data ≠ [] → (s.run quiet ops)._remotes._handlers = []) := by
  induction ops with
  | nil => intro s hv hb; exact ⟨hv, hb⟩
  | cons op ops ih =>
    intro s hv hb
    obtain ⟨h1, h2⟩ := source.apply_quiet_inv s op hv hb
    exact ih _ h1 h2

/-- C18: in every state reached from the constructor by `reg`, `unreg` and
`send` calls whose handlers do not call back into the source, a non-empty
backlog comes with a registry holding no handler; and while a handler is
registered the backlog is empty and `send` returns `nullptr` and leaves the
backlog empty: it neither buffers nor drops. -/
theorem source.backlog_only_without_connection (io_id : io_id_t) (handler : incoming_handler_t)
    (limit : Nat) (ops : List source_op) (d : data_ptr) :
    (((source.init io_id handler limit).run quiet ops)._wait_data ≠ [] →
        ((source.init io_id handler limit).run quiet ops)._remotes._handlers = []) ∧
      (((source.init io_id handler limit).run quiet ops)._remotes._handlers ≠ [] →
        ((source.init io_id handler limit).run quiet ops)._wait_data = [] ∧
          (((source.init io_id handler limit).run quiet ops).send quiet d).2.2 = none ∧
          (((source.init io_id handler limit).run quiet ops).send quiet d).1._wait_data = []) := by
  have hinit : (source.init io_id handler limit)._remotes.cursor_valid := by
    intro k hk
    simp [source.init, outgoing_map.init] at hk
  obtain ⟨hv, hb⟩ := source.run_quiet_inv ops (source.init io_id handler limit) hinit
    (fun h => absurd rfl h)
  refine ⟨hb, fun hne => ?_⟩
  have hw : ((source.init io_id handler limit).run quiet ops)._wait_data = [] := by
    by_contra hcon
    exact hne (hb hcon)
  obtain ⟨hret, hw1, _, _⟩ := source.remotes_send_quiet_nonempty _ d hv hne
  refine ⟨hw, ?_, ?_⟩
  · simp only [source.send, hret]
  · simp only [source.send, hret, hw1, hw]

theorem source.backlog_only_without_connection_witness :
    (source.init 0 0 2).run quiet
        [.send (some [1]), .send (some [2]), .reg 7 70, .send (some [3]), .unreg 7,
          .send (some [4]), .reg 8 80]
        = ⟨0, 0, 2, ⟨[(8, 80)], none⟩, []⟩ ∧
      (((source.init 0 0 2).run quiet [.send (some [1]), .unreg 3])._wait_data = [some [1]] ∧
        ((source.init 0 0 2).run quiet [.send (some [1]), .unreg 3])._remotes._handlers = []) ∧
      (((source.init 0 0 2).run quiet
          [.send (some [1]), .send (some [2]), .reg 7 70, .send (some [3]), .unreg 7,
            .send (some [4]), .reg 8 80])._wait_data = [] ∧
        (((source.init 0 0 2).run quiet
          [.send (some [1]), .send (some [2]), .reg 7 70, .send (some [3]), .unreg 7,
            .send (some [4]), .reg 8 80]).send quiet (some [5])).2.2 = none ∧
        (((source.init 0 0 2).run quiet
          [.send (some [1]), .send (some [2]), .reg 7 70, .send (some [3]), .unreg 7,
            .send (some [4]), .reg 8 80]).send quiet (some [5])).1._wait_data = []) :=
  ⟨by decide,
    ⟨by decide,
      (source.backlog_only_without_connection 0 0 2 [.send (some [1]), .unreg 3] none).1
        (by decide)⟩,
    (source.backlog_only_without_connection 0 0 2
      [.send (some [1]), .send (some [2]), .reg 7 70, .send (some [3]), .unreg 7,
        .send (some [4]), .reg 8 80] (some [5])).2 (by decide)⟩

/-! ## Further claims on the managed connection -/

theorem source.send_dropped_iff (invoke : invoke_t) (s : source) (x : data_type)
    (hv : s._remotes.cursor_valid) :
    (s.send invoke (some x)).2.2 ≠ none ↔
      s._remotes._handlers = [] ∧ ¬ s._wait_data.length < s._outgoing_limit := by
  by_cases he : s._remotes._handlers = []
  · by_cases hl : s._wait_data.length < s._outgoing_limit <;>
      simp [source.send, source.remotes_send_empty invoke s (some x) he, he, hl]
  · obtain ⟨h, hh⟩ := source.remotes_send_nonempty invoke s (some x) hv he
    simp [source.send, hh, he]

/-- C12: `mtconn::send(d, h)` passes `d` to `source::send` once: the connection
afterwards holds the source that call left and the dispatch invocations are
those of that call.  The reply handler is invoked, once and with `nullptr`,
exactly when `source::send` handed the message back and `h` is not null; a
message is handed back exactly when no handler is registered and the backlog
is full, so a dispatched or buffered message invokes no reply handler. -/
theorem mtconn.send_drop_notification (invoke : invoke_t) (c : mtconn) (d : data_ptr)
    (handler : Option outgoing_handler_t) :
    (c.send invoke d handler).conn = { c with _source := (c._source.send invoke d).1 } ∧
      (c.send invoke d handler).calls = (c._source.send invoke d).2.1 ∧
      (∀ r, (c.send invoke d handler).reply = some r ↔
        ∃ h, handler = some h ∧ (c._source.send invoke d).2.2 ≠ none ∧ r = ⟨h, none⟩) ∧
      ((c._source.send invoke d).2.2 = none → (c.send invoke d handler).reply = none) ∧
      (∀ x, d = some x → c._source._remotes.cursor_valid →
        ((c._source.send invoke d).2.2 ≠ none ↔
          c._source._remotes._handlers = [] ∧
            ¬ c._source._wait_data.length < c._source._outgoing_limit)) := by
  refine ⟨?_, ?_, ?_, ?_, ?_⟩
  · cases hret : (c._source.send invoke d).2.2 <;> cases handler <;>
      simp [mtconn.send, hret]
  · cases hret : (c._source.send invoke d).2.2 <;> cases handler <;>
      simp [mtconn.send, hret]
  · intro r
    cases hret : (c._source.send invoke d).2.2 <;> cases handler <;>
      simp [mtconn.send, hret, eq_comm]
  · intro hret
    simp [mtconn.send, hret]
  · intro x hx hv
    subst hx
    exact source.send_dropped_iff invoke c._source x hv

theorem mtconn.send_drop_notification_witness :
    (mtconn.send quiet ⟨true, 500, 0, ⟨0, 0, 1, ⟨[], none⟩, [some [1]]⟩⟩ (some [2])
        (some 30)).reply = some ⟨30, none⟩ ∧
      (mtconn.send quiet ⟨true, 500, 0, ⟨0, 0, 1, ⟨[], none⟩, [some [1]]⟩⟩ (some [2])
        none).reply = none ∧
      (mtconn.send quiet ⟨true, 500, 0, ⟨0, 0, 2, ⟨[], none⟩, [some [1]]⟩⟩ (some [2])
        (some 30)).reply = none ∧
      (mtconn.send quiet ⟨true, 500, 0, ⟨0, 0, 1, ⟨[(7, 70)], none⟩, []⟩⟩ (some [2])
        (some 30)).reply = none :=
  ⟨((mtconn.send_drop_notification quiet ⟨true, 500, 0, ⟨0, 0, 1, ⟨[], none⟩, [some [1]]⟩⟩
      (some [2]) (some 30)).2.2.1 ⟨30, none⟩).2 ⟨30, rfl, by decide, rfl⟩,
    by decide,
    (mtconn.send_drop_notification quiet ⟨true, 500, 0, ⟨0, 0, 2, ⟨[], none⟩, [some [1]]⟩⟩
      (some [2]) (some 30)).2.2.2.1 (by decide),
    (mtconn.send_drop_notification quiet ⟨true, 500, 0, ⟨0, 0, 1, ⟨[(7, 70)], none⟩, []⟩⟩
      (some [2]) (some 30)).2.2.2.1 (by decide)⟩

/-- C15: `stop(); stop()` leaves the state of a single `stop()` and the second
call does nothing; the transport is stopped exactly by a call that finds the
started flag true; `stop()` on a connection that is not started changes
nothing; and `stop()` changes nothing but the started flag. -/
theorem mtconn.stop_idempotent (c : mtconn) :
    (c.stop).1.stop = ((c.stop).1, []) ∧
      (c.stop).2 = (if c._started then [action.transport_stop] else []) ∧
      (c._started = false → c.stop = (c, [])) ∧
      (c.stop).1 = { c with _started := false } := by
  obtain ⟨st, a, b, src⟩ := c
  cases st <;> simp [mtconn.stop]

theorem mtconn.stop_idempotent_witness :
    mtconn.stop ⟨true, 500, 1000, source.init 0 0 2⟩
        = (⟨false, 500, 1000, source.init 0 0 2⟩, [.transport_stop]) ∧
      mtconn.stop ⟨false, 500, 1000, source.init 0 0 2⟩
        = (⟨false, 500, 1000, source.init 0 0 2⟩, []) :=
  ⟨by decide,
    (mtconn.stop_idempotent ⟨false, 500, 1000, source.init 0 0 2⟩).2.2.1 rfl⟩

/-- C17: on a live connection the wrapped shutdown handler for connection id
`c` calls, in this order, the user shutdown hook if present, the transport stop
of `stop()` if the connection was started, the user error hook if present with
the no-error code, and then arms the reconnect timer with the computed wait;
afterwards the started flag is false, `c` is erased from the source's registry
and `_connect_time` is the clock reading.  It issues no connect attempt; of
the notifications a connection receives, only a timer callback completed
without `operation_aborted` issues one. -/
theorem mtconn.shutdown_routes_to_reconnect (invoke : invoke_t) (opt : options) (c : mtconn)
    (io_id : io_id_t) (now : time_t) :
    mtconn.shutdown_handler opt io_id now (some c)
        = (some ⟨false, c._reconnect_timeout_ms, now, c._source.unreg io_id⟩,
            (if opt.shutdown_handler then [action.user_shutdown io_id] else []) ++
              (if c._started then [action.transport_stop] else []) ++
              ((if opt.error_handler then [action.user_error 0] else []) ++
                [.timer_expires_from_now (c.reconnect_time now), .timer_async_wait])) ∧
      action.connect ∉ (mtconn.shutdown_handler opt io_id now (some c)).2 ∧
      ∀ e, e ≠ event.start →
        (action.connect ∈ (mtconn.step invoke opt c e).2 ↔
          ∃ ec, e = event.timer ec ∧ ec ≠ operation_aborted) := by
  have h1 : mtconn.shutdown_handler opt io_id now (some c)
      = (some ⟨false, c._reconnect_timeout_ms, now, c._source.unreg io_id⟩,
          (if opt.shutdown_handler then [action.user_shutdown io_id] else []) ++
            (if c._started then [action.transport_stop] else []) ++
            ((if opt.error_handler then [action.user_error 0] else []) ++
              [.timer_expires_from_now (c.reconnect_time now), .timer_async_wait])) := by
    obtain ⟨st, a, b, src⟩ := c
    cases st <;>
      simp [mtconn.shutdown_handler, mtconn.error_handler, mtconn.stop, mtconn.reconnect_time]
  refine ⟨h1, ?_, ?_⟩
  · rw [h1]
    cases opt.shutdown_handler <;> cases c._started <;> cases opt.error_handler <;> simp
  · intro e he
    cases e with
    | start => exact absurd rfl he
    | stop => simp only [mtconn.step, mtconn.stop]; split_ifs <;> simp
    | connect_ok =>
      simp only [mtconn.step, mtconn.connect_handler]
      cases opt.connect_handler <;> simp
    | error ec t =>
      simp only [mtconn.step, mtconn.error_handler]
      cases opt.error_handler <;> simp
    | startup k o =>
      simp only [mtconn.step, mtconn.startup_handler]
      cases opt.startup_handler <;> simp
    | shutdown k t =>
      simp only [mtconn.step]
      rw [show mtconn.shutdown_handler opt k t (some c)
        = (some ⟨false, c._reconnect_timeout_ms, t, c._source.unreg k⟩,
          (if opt.shutdown_handler then [action.user_shutdown k] else []) ++
            (if c._started then [action.transport_stop] else []) ++
            ((if opt.error_handler then [action.user_error 0] else []) ++
              [.timer_expires_from_now (c.reconnect_time t), .timer_async_wait])) from by
        obtain ⟨st, a, b, src⟩ := c
        cases st <;>
          simp [mtconn.shutdown_handler, mtconn.error_handler, mtconn.stop,
            mtconn.reconnect_time]]
      cases opt.shutdown_handler <;> cases c._started <;> cases opt.error_handler <;> simp
    | timer ec =>
      simp only [mtconn.step, mtconn.timer_handler]
      split_ifs with hab <;> simp [hab]

theorem mtconn.shutdown_routes_to_reconnect_witness :
    mtconn.shutdown_handler ⟨500, false, true, false, true⟩ 7 1200
        (some ⟨true, 500, 1000, ⟨0, 0, 2, ⟨[(7, 70)], none⟩, []⟩⟩)
        = (some ⟨false, 500, 1200, ⟨0, 0, 2, ⟨[], none⟩, []⟩⟩,
            [.user_shutdown 7, .transport_stop, .user_error 0, .timer_expires_from_now 300,
              .timer_async_wait]) ∧
      (action.connect ∈ (mtconn.step quiet ⟨500, false, true, false, true⟩
          ⟨false, 500, 1200, ⟨0, 0, 2, ⟨[], none⟩, []⟩⟩ (.timer 0)).2 ↔
        ∃ ec, event.timer 0 = event.timer ec ∧ ec ≠ operation_aborted) :=
  ⟨by decide,
    (mtconn.shutdown_routes_to_reconnect quiet ⟨500, false, true, false, true⟩
      ⟨false, 500, 1200, ⟨0, 0, 2, ⟨[], none⟩, []⟩⟩ 7 1200).2.2 (.timer 0) (by decide)⟩

/-! ## Claims on the client -/

theorem connect_map.find_head (e : io_id_t × mtconn) (rest : connect_map) (k : io_id_t) :
    connect_map.find (e :: rest) k = if e.1 = k then some e.2 else connect_map.find rest k := by
  by_cases he : e.1 = k <;> simp [connect_map.find, List.find?_cons, he]

theorem connect_map.find_insert_self (m : connect_map) (k : io_id_t) (c : mtconn)
    (hk : connect_map.find m k = none) : connect_map.find (connect_map.insert m k c) k = some c := by
  induction m with
  | nil => simp [connect_map.insert, connect_map.find_head]
  | cons e rest ih =>
    obtain ⟨k0, c0⟩ := e
    rw [connect_map.find_head] at hk
    by_cases h0 : k0 = k
    · simp [h0] at hk
    · simp only [h0, if_false] at hk
      unfold connect_map.insert
      split_ifs with h1 h2
      · simp [connect_map.find_head]
      · exact absurd h2.symm h0
      · rw [connect_map.find_head]
        simp only [h0, if_false]
        exact ih hk

theorem connect_map.find_insert_other (m : connect_map) (k k1 : io_id_t) (c : mtconn)
    (hne : k1 ≠ k) : connect_map.find (connect_map.insert m k c) k1 = connect_map.find m k1 := by
  induction m with
  | nil => simp [connect_map.insert, connect_map.find_head, hne.symm, connect_map.find]
  | cons e rest ih =>
    obtain ⟨k0, c0⟩ := e
    unfold connect_map.insert
    split_ifs with h1 h2
    · rw [connect_map.find_head]
      simp [hne.symm]
    · rfl
    · rw [connect_map.find_head, connect_map.find_head, ih]

theorem connect_map.length_insert (m : connect_map) (k : io_id_t) (c : mtconn)
    (hk : connect_map.find m k = none) :
    (connect_map.insert m k c).length = m.length + 1 := by
  induction m with
  | nil => simp [connect_map.insert]
  | cons e rest ih =>
    obtain ⟨k0, c0⟩ := e
    rw [connect_map.find_head] at hk
    by_cases h0 : k0 = k
    · simp [h0] at hk
    · simp only [h0, if_false] at hk
      unfold connect_map.insert
      split_ifs with h1 h2
      · simp
      · exact absurd h2.symm h0
      · simp [ih hk]

theorem connect_map.find_update (m : connect_map) (k k1 : io_id_t) (c : mtconn) :
    connect_map.find (connect_map.update m k c) k1
      = if k1 = k then (connect_map.find m k).map (fun _ => c) else connect_map.find m k1 := by
  induction m with
  | nil => simp [connect_map.update, connect_map.find]
  | cons e rest ih =>
    have hu : connect_map.update (e :: rest) k c
        = (if e.1 = k then (e.1, c) else e) :: connect_map.update rest k c := by
      simp [connect_map.update]
    rw [hu]
    by_cases hek : e.1 = k
    · by_cases h1 : k1 = k
      · subst h1
        simp [connect_map.find_head, hek]
      · have h2 : ¬ k = k1 := fun h => h1 h.symm
        have h3 : ¬ e.1 = k1 := by rw [hek]; exact h2
        rw [if_pos hek]
        simp only [connect_map.find_head, ih, h1, h2, h3, if_false]
    · by_cases h1 : k1 = k
      · subst h1
        rw [if_neg hek]
        simp only [connect_map.find_head, ih, hek, if_false, if_true]
      · rw [if_neg hek]
        simp only [connect_map.find_head, ih, h1, if_false]

theorem client.reg__known (cl : client) (k : io_id_t) (h : incoming_handler_t) (p : mtconn)
    (hk : connect_map.find cl._connects k = some p) : cl.reg_ k h = some ⟨cl, p, [], []⟩ := by
  simp [client.reg_, hk]

theorem client.reg__unknown (cl : client) (opt : options) (k : io_id_t) (h : incoming_handler_t)
    (hs : cl._create_and_start = some opt) (hk : connect_map.find cl._connects k = none) :
    cl.reg_ k h
      = some ⟨{ cl with _connects :=
            connect_map.insert cl._connects k (create_and_start opt k h).1 },
          (create_and_start opt k h).1, [(k, h)], (create_and_start opt k h).2⟩ := by
  simp [client.reg_, hk, hs]

theorem connect_map.isSome_find_update (m : connect_map) (k k1 : io_id_t) (c : mtconn) :
    (connect_map.find (connect_map.update m k c) k1).isSome = (connect_map.find m k1).isSome := by
  rw [connect_map.find_update]
  split_ifs with h
  · subst h
    cases connect_map.find m k1 <;> rfl
  · rfl

theorem client.apply_spec (invoke : invoke_t) (cl : client) (opt : options) (op : client_op)
    (hs : cl._create_and_start = some opt) :
    ∃ cl1 cr1, cl.apply invoke op = some (cl1, cr1) ∧ cl1._create_and_start = some opt ∧
      (cr1.map Prod.fst).Nodup ∧
      (∀ k ∈ cr1.map Prod.fst, connect_map.find cl._connects k = none) ∧
      (∀ k, (connect_map.find cl1._connects k).isSome ↔
        ((connect_map.find cl._connects k).isSome ∨ k ∈ cr1.map Prod.fst)) := by
  cases op with
  | reg k h =>
    cases hf : connect_map.find cl._connects k with
    | some p =>
      refine ⟨cl, [], ?_, hs, by simp, by simp, by simp⟩
      simp [client.apply, client.reg, client.reg__known cl k h p hf]
    | none =>
      refine ⟨{ cl with _connects :=
          connect_map.insert cl._connects k (create_and_start opt k h).1 }, [(k, h)],
        ?_, hs, by simp, by simpa using hf, fun k1 => ?_⟩
      · simp [client.apply, client.reg, client.reg__unknown cl opt k h hs hf]
      · by_cases h1 : k1 = k
        · subst h1
          simp [connect_map.find_insert_self _ _ _ hf]
        · simp [connect_map.find_insert_other _ _ _ _ h1, h1]
  | send d k h =>
    cases hf : connect_map.find cl._connects k with
    | some p =>
      refine ⟨{ cl with _connects :=
          connect_map.update cl._connects k (p.send invoke d h).conn }, [], ?_, hs, by simp,
        by simp, fun k1 => ?_⟩
      · simp [client.apply, client.send, hf]
      · simp [connect_map.isSome_find_update]
    | none =>
      refine ⟨{ cl with _connects :=
          (connect_map.update (connect_map.insert cl._connects k
            (create_and_start opt k (incoming_handler_t.adapter h)).1) k
            (((create_and_start opt k (incoming_handler_t.adapter h)).1).send invoke d h).conn) },
        [(k, incoming_handler_t.adapter h)], ?_, hs, by simp, by simpa using hf, fun k1 => ?_⟩
      · simp [client.apply, client.send, hf,
          client.reg__unknown cl opt k (incoming_handler_t.adapter h) hs hf]
      · simp only [connect_map.isSome_find_update]
        by_cases h1 : k1 = k
        · subst h1
          simp [connect_map.find_insert_self _ _ _ hf]
        · simp [connect_map.find_insert_other _ _ _ _ h1, h1]

theorem client.run_spec (invoke : invoke_t) (opt : options) (ops : List client_op) :
    ∀ cl : client, cl._create_and_start = some opt →
      ∃ cl1 cr, client.run invoke cl ops = some (cl1, cr) ∧ cl1._create_and_start = some opt ∧
        (cr.map Prod.fst).Nodup ∧
        (∀ k ∈ cr.map Prod.fst, connect_map.find cl._connects k = none) ∧
        (∀ k, (connect_map.find cl1._connects k).isSome ↔
          ((connect_map.find cl._connects k).isSome ∨ k ∈ cr.map Prod.fst)) := by
  induction ops with
  | nil =>
    intro cl hs
    exact ⟨cl, [], rfl, hs, by simp, by simp, by simp⟩
  | cons op ops ih =>
    intro cl hs
    obtain ⟨cl1, cr1, ha, hs1, hn1, hu1, hk1⟩ := client.apply_spec invoke cl opt op hs
    obtain ⟨cl2, cr2, hr, hs2, hn2, hu2, hk2⟩ := ih cl1 hs1
    refine ⟨cl2, cr1 ++ cr2, ?_, hs2, ?_, ?_, ?_⟩
    · simp [client.run, ha, hr]
    · rw [List.map_append, List.nodup_append]
      refine ⟨hn1, hn2, ?_⟩
      intro k hk1m hk2m
      have h1 : (connect_map.find cl1._connects k).isSome := (hk1 k).2 (Or.inr hk1m)
      rw [hu2 k hk2m] at h1
      simp at h1
    · intro k hk
      rw [List.map_append, List.mem_append] at hk
      rcases hk with hk | hk
      · exact hu1 k hk
      · have h2 := hu2 k hk
        cases hf : connect_map.find cl._connects k with
        | none => rfl
        | some p =>
          have h1 : (connect_map.find cl1._connects k).isSome := (hk1 k).2 (Or.inl (by simp [hf]))
          rw [h2] at h1
          simp at h1
    · intro k
      rw [hk2 k, hk1 k, List.map_append, List.mem_append]
      tauto

theorem client.run_regs_known (invoke : invoke_t) (cl : client) (c : io_id_t) (p : mtconn)
    (hk : connect_map.find cl._connects c = some p) (hs : List incoming_handler_t) :
    client.run invoke cl (hs.map (fun h2 => client_op.reg c h2)) = some (cl, []) := by
  induction hs with
  | nil => rfl
  | cons h2 rest ih =>
    simp [client.run, client.apply, client.reg, client.reg__known cl c h2 p hk, ih]

theorem source.send_fresh (invoke : invoke_t) (io_id : io_id_t) (handler : incoming_handler_t)
    (d : data_ptr) :
    ((source.init io_id handler 1000).send invoke d).1._source_handler = handler ∧
      ((source.init io_id handler 1000).send invoke d).1._source_id = io_id ∧
      ((source.init io_id handler 1000).send invoke d).2.2 = none := by
  have he : (source.init io_id handler 1000)._remotes._handlers = [] := rfl
  cases d with
  | none =>
    simp only [source.send, source.remotes_send_empty invoke _ none he]
    exact ⟨rfl, rfl, trivial⟩
  | some x =>
    have hl : (source.init io_id handler 1000)._wait_data.length
        < (source.init io_id handler 1000)._outgoing_limit := by
      simp [source.init]
    simp only [source.send, source.remotes_send_empty invoke _ (some x) he, if_pos hl]
    exact ⟨rfl, rfl, trivial⟩

/-- C13: in every sequence of `client::reg` and `client::send` calls after
`start`, all calls succeed and the factory is called at most once for each
channel id; `reg(c, h)` on a known `c` leaves the client as it is and returns
the existing connection; `reg(c, h)` on an unknown `c` calls the factory once,
adds exactly one entry, for `c`, holding the new connection, and leaves every
other entry as it is. -/
theorem client.reg_idempotent (invoke : invoke_t) (opt : options) (ops : List client_op)
    (c : io_id_t) :
    (∃ cl cr, client.run invoke (client.start client.init opt) ops = some (cl, cr) ∧
        (cr.map Prod.fst).count c ≤ 1) ∧
      (∀ (cl : client) (p : mtconn) (h : incoming_handler_t),
        connect_map.find cl._connects c = some p → cl.reg c h = some ⟨cl, p, [], []⟩) ∧
      (∀ (cl : client) (h : incoming_handler_t), cl._create_and_start = some opt →
        connect_map.find cl._connects c = none →
        ∃ g, cl.reg c h = some g ∧ g.created = [(c, h)] ∧
          g.pconn = (create_and_start opt c h).1 ∧
          connect_map.find g.cl._connects c = some g.pconn ∧
          g.cl._connects.length = cl._connects.length + 1 ∧
          ∀ k, k ≠ c → connect_map.find g.cl._connects k = connect_map.find cl._connects k) := by
  refine ⟨?_, fun cl p h hk => client.reg__known cl c h p hk, fun cl h hs hk => ?_⟩
  · obtain ⟨cl, cr, hr, _, hn, _, _⟩ :=
      client.run_spec invoke opt ops (client.start client.init opt) rfl
    exact ⟨cl, cr, hr, List.nodup_iff_count_le_one.1 hn c⟩
  · refine ⟨_, client.reg__unknown cl opt c h hs hk, rfl, rfl, ?_, ?_, fun k hne => ?_⟩
    · exact connect_map.find_insert_self _ _ _ hk
    · exact connect_map.length_insert _ _ _ hk
    · exact connect_map.find_insert_other _ _ _ _ hne

theorem client.reg_idempotent_witness :
    client.run quiet (client.start client.init ⟨500, false, false, false, false⟩)
        [.send (some [1]) 3 (some 30), .reg 3 5, .reg 4 6, .send (some [2]) 3 none, .reg 4 7]
        = some (⟨some ⟨500, false, false, false, false⟩,
            [(3, ⟨true, 500, 0, ⟨3, .adapter (some 30), 1000, ⟨[], none⟩,
                [some [1], some [2]]⟩⟩),
              (4, ⟨true, 500, 0, ⟨4, 6, 1000, ⟨[], none⟩, []⟩⟩)]⟩,
          [(3, .adapter (some 30)), (4, 6)]) ∧
      client.reg ⟨some ⟨500, false, false, false, false⟩,
          [(3, ⟨true, 500, 0, source.init 3 5 1000⟩)]⟩ 3 9
        = some ⟨⟨some ⟨500, false, false, false, false⟩,
            [(3, ⟨true, 500, 0, source.init 3 5 1000⟩)]⟩,
          ⟨true, 500, 0, source.init 3 5 1000⟩, [], []⟩ ∧
      ∃ g, client.reg ⟨some ⟨500, false, false, false, false⟩,
          [(3, ⟨true, 500, 0, source.init 3 5 1000⟩)]⟩ 2 9 = some g ∧
        g.created = [(2, 9)] ∧
        g.pconn = (create_and_start ⟨500, false, false, false, false⟩ 2 9).1 ∧
        connect_map.find g.cl._connects 2 = some g.pconn ∧
        g.cl._connects.length
          = ([(3, ⟨true, 500, 0, source.init 3 5 1000⟩)] : connect_map).length + 1 ∧
        ∀ k, k ≠ 2 → connect_map.find g.cl._connects k
          = connect_map.find [(3, ⟨true, 500, 0, source.init 3 5 1000⟩)] k :=
  ⟨by decide,
    (client.reg_idempotent quiet ⟨500, false, false, false, false⟩ [] 3).2.1
      ⟨some ⟨500, false, false, false, false⟩, [(3, ⟨true, 500, 0, source.init 3 5 1000⟩)]⟩
      ⟨true, 500, 0, source.init 3 5 1000⟩ 9 (by decide),
    (client.reg_idempotent quiet ⟨500, false, false, false, false⟩ [] 2).2.2
      ⟨some ⟨500, false, false, false, false⟩, [(3, ⟨true, 500, 0, source.init 3 5 1000⟩)]⟩
      9 rfl (by decide)⟩

/-- C19: `client::send(d, c, h)` on a started client that does not know `c`
calls the factory once, with the adapter lambda around `h`: afterwards `c` has
a connection whose source has that lambda as incoming handler, and the lambda
hands only the payload to `h`.  Every later `client::reg(c, h2)` succeeds
without calling the factory and leaves the client, and so the connection of `c`
and its incoming handler, as they are. -/
theorem client.first_handler_wins (invoke : invoke_t) (cl : client) (opt : options)
    (d : data_ptr) (c : io_id_t) (h : Option outgoing_handler_t)
    (hs : cl._create_and_start = some opt) (hu : connect_map.find cl._connects c = none) :
    ∃ g, cl.send invoke d c h = some g ∧
      g.created = [(c, incoming_handler_t.adapter h)] ∧
      (∃ p, connect_map.find g.cl._connects c = some p ∧
        p._source._source_handler = incoming_handler_t.adapter h ∧
        p._source._source_id = c ∧
        ∀ x io out, (p._source.recv x io out).handler = incoming_handler_t.adapter h) ∧
      (∀ x io out, adapter_body h x io out = h.map (fun f => ⟨f, x⟩)) ∧
      ∀ h2s : List incoming_handler_t,
        client.run invoke g.cl (h2s.map (fun h2 => client_op.reg c h2)) = some (g.cl, []) := by
  have hreg := client.reg__unknown cl opt c (incoming_handler_t.adapter h) hs hu
  have hfresh := source.send_fresh invoke c (incoming_handler_t.adapter h) d
  have hconn : (((create_and_start opt c (incoming_handler_t.adapter h)).1).send invoke d h).conn
      = { (create_and_start opt c (incoming_handler_t.adapter h)).1 with
          _source := ((source.init c (incoming_handler_t.adapter h) 1000).send invoke d).1 } := by
    simp [mtconn.send, create_and_start, mtconn.start, mtconn.init, hfresh.2.2]
  have hfind : connect_map.find
      (connect_map.update (connect_map.insert cl._connects c
        (create_and_start opt c (incoming_handler_t.adapter h)).1) c
        (((create_and_start opt c (incoming_handler_t.adapter h)).1).send invoke d h).conn) c
      = some (((create_and_start opt c (incoming_handler_t.adapter h)).1).send invoke d h).conn := by
    rw [connect_map.find_update, if_pos rfl, connect_map.find_insert_self _ _ _ hu]
    rfl
  refine ⟨_, by simp only [client.send, hu, hreg]; rfl, rfl, ⟨_, hfind, ?_, ?_, ?_⟩,
    fun _ _ _ => rfl, fun h2s => client.run_regs_known invoke _ c _ hfind h2s⟩
  · rw [hconn]; exact hfresh.1
  · rw [hconn]; exact hfresh.2.1
  · intro x io out
    simp only [source.recv]
    rw [hconn]; exact hfresh.1

theorem client.first_handler_wins_witness :
    client.send quiet (client.start client.init ⟨500, false, false, false, false⟩) (some [1]) 3
        (some 30)
        = some ⟨⟨some ⟨500, false, false, false, false⟩,
              [(3, ⟨true, 500, 0, ⟨3, .adapter (some 30), 1000, ⟨[], none⟩, [some [1]]⟩⟩)]⟩,
            [(3, .adapter (some 30))],
            ⟨⟨true, 500, 0, ⟨3, .adapter (some 30), 1000, ⟨[], none⟩, [some [1]]⟩⟩, [], none⟩⟩ ∧
      ∃ g, client.send quiet (client.start client.init ⟨500, false, false, false, false⟩)
          (some [1]) 3 (some 30) = some g ∧
        g.created = [(3, incoming_handler_t.adapter (some 30))] ∧
        (∃ p, connect_map.find g.cl._connects 3 = some p ∧
          p._source._source_handler = incoming_handler_t.adapter (some 30) ∧
          p._source._source_id = 3 ∧
          ∀ x io out, (p._source.recv x io out).handler = incoming_handler_t.adapter (some 30)) ∧
        (∀ x io out, adapter_body (some 30) x io out
          = (some 30 : Option outgoing_handler_t).map (fun f => ⟨f, x⟩)) ∧
        ∀ h2s : List incoming_handler_t,
          client.run quiet g.cl (h2s.map (fun h2 => client_op.reg 3 h2)) = some (g.cl, []) :=
  ⟨by decide,
    client.first_handler_wins quiet (client.start client.init ⟨500, false, false, false, false⟩)
      ⟨500, false, false, false, false⟩ (some [1]) 3 (some 30) rfl (by decide)⟩


end iow.io.client
